import Mathlib

/-!
Verification development for the danote unknown-token resolution engine
(backend/app/services/typo plus the classifier orchestration in
backend/app/services/token_classifier.py).

Python strings are embedded as `List Char` (`Str`).  Character classes
(`\w`, `str.lower`, `str.isupper`, whitespace) are modelled over the
alphabet the engine works with: ASCII plus the Danish vowels æ/ø/å.
Python `sorted` (a stable sort) is embedded as a stable insertion sort
with the same comparator.  Wall-clock readings (latency measurement and
the `CURRENT_TIMESTAMP` used for ignored-token expiry) are supplied to
each call as explicit oracle inputs `dt` and `now`.  Float arithmetic is
embedded exactly: rational operations as `ℚ`, transcendental ones
(`math.exp`, `math.log1p`) over `ℝ`.  The optional external backends
(rapidfuzz similarity, the SymSpell fuzzy index) are modelled as
parameters: the similarity backend as a state field, and the engine runs
the brute-force candidate path of `CandidateProvider._suggest_one`
(the repository's fallback when SymSpell is absent); the SymSpell branch
of `_suggest_one` is embedded separately, parameterised by the lookup
results it receives from the external index.
-/

/-- Python strings are modelled as lists of characters. -/
abbrev Str := List Char

/-- Stable insertion of one element for `sortBy`. -/
def insertBy {α : Type} (le : α → α → Bool) (x : α) : List α → List α
  | [] => [x]
  | y :: ys => if le x y then x :: y :: ys else y :: insertBy le x ys

/-- Stable sort with a boolean comparator; models Python's stable `sorted`. -/
def sortBy {α : Type} (le : α → α → Bool) : List α → List α
  | [] => []
  | x :: xs => insertBy le x (sortBy le xs)

/-- Lexicographic (code-point) order on strings, as Python compares `str`. -/
def strLe : Str → Str → Bool
  | [], _ => true
  | _ :: _, [] => false
  | a :: as, b :: bs => if a = b then strLe as bs else decide (a.toNat < b.toNat)

/-- Boolean test that `p` is an initial segment of `s` (Python `str.startswith`). -/
def strBegins : Str → Str → Bool
  | _, [] => true
  | [], _ :: _ => false
  | c :: cs, d :: ds => decide (c = d) && strBegins cs ds

/-- Boolean test that `p` is a final segment of `s` (Python `str.endswith`). -/
def strEnds (s p : Str) : Bool := strBegins s.reverse p.reverse

/-- The six Danish vowel letters the engine treats specially. -/
def danishChars : List Char := ['æ', 'ø', 'å', 'Æ', 'Ø', 'Å']

/-- Word characters of `EDGE_PUNCT_PATTERN`: regex `\w` (alphanumerics and
underscore) together with the Danish vowels, over the modelled alphabet. -/
def isWordChar (c : Char) : Bool := c.isAlphanum || c = '_' || decide (c ∈ danishChars)

/-- Whitespace characters stripped by Python's `str.strip` / split by `str.split`. -/
def isWsChar (c : Char) : Bool := decide (c ∈ [' ', '\t', '\n', '\r', '\x0b', '\x0c'])

/-- Uppercase/lowercase pairs of the modelled alphabet, for `str.lower`. -/
def lowerPairs : List (Char × Char) :=
  [('A', 'a'), ('B', 'b'), ('C', 'c'), ('D', 'd'), ('E', 'e'), ('F', 'f'), ('G', 'g'),
   ('H', 'h'), ('I', 'i'), ('J', 'j'), ('K', 'k'), ('L', 'l'), ('M', 'm'), ('N', 'n'),
   ('O', 'o'), ('P', 'p'), ('Q', 'q'), ('R', 'r'), ('S', 's'), ('T', 't'), ('U', 'u'),
   ('V', 'v'), ('W', 'w'), ('X', 'x'), ('Y', 'y'), ('Z', 'z'),
   ('Æ', 'æ'), ('Ø', 'ø'), ('Å', 'å')]

/-- Lowercasing of one character (Python `str.lower`, modelled alphabet). -/
def lowerChar (c : Char) : Char :=
  ((lowerPairs.find? fun p => decide (p.1 = c)).map (·.2)).getD c

/-- Lowercasing of a string, character by character. -/
def toLowerStr (s : Str) : Str := s.map lowerChar

/-- Python `str.strip()`: drop leading and trailing whitespace. -/
def stripWs (s : Str) : Str :=
  ((s.dropWhile isWsChar).reverse.dropWhile isWsChar).reverse

/-- The per-character effect of normalization.normalize_apostrophes. -/
def aposChar (c : Char) : Char :=
  if c = '’' then '\'' else if c = '\x60' then '\'' else c

/-- normalization.normalize_apostrophes: map the typographic apostrophe and the
backquote (`\x60`) to the plain apostrophe. -/
def normalizeApostrophes (s : Str) : Str := s.map aposChar

/-- One substitution pass of `EDGE_PUNCT_PATTERN`: remove the maximal leading
and trailing runs of characters that are neither word characters nor Danish
vowels. -/
def stripEdgesOnce (s : Str) : Str :=
  ((s.dropWhile fun c => !isWordChar c).reverse.dropWhile fun c => !isWordChar c).reverse

/-- The `while True` loop of normalize_for_typo_compare: re-apply the edge
substitution until it no longer changes the string (fuelled; the fuel used by
`normalizeForTypoCompare` always suffices). -/
def stripEdgesLoop : Nat → Str → Str
  | 0, s => s
  | n + 1, s =>
    let t := stripEdgesOnce s
    if t = s then s else stripEdgesLoop n t

/-- normalization.normalize_for_typo_compare: strip whitespace, lowercase,
normalise apostrophes, then strip edge punctuation until stable. -/
def normalizeForTypoCompare (token : Str) : Str :=
  stripEdgesLoop (token.length + 1) (normalizeApostrophes (toLowerStr (stripWs token)))

/-- Membership of the two-character pattern `c₁c₂` in `s` (Python `sub in s`). -/
def hasPair (c₁ c₂ : Char) : Str → Bool
  | [] => false
  | [_] => false
  | a :: b :: rest => (decide (a = c₁) && decide (b = c₂)) || hasPair c₁ c₂ (b :: rest)

/-- Python `s.replace(c₁c₂, r)` for a two-character pattern: non-overlapping,
left to right. -/
def replacePair (c₁ c₂ r : Char) : Str → Str
  | [] => []
  | [a] => [a]
  | a :: b :: rest =>
    if a = c₁ ∧ b = c₂ then r :: replacePair c₁ c₂ r rest
    else a :: replacePair c₁ c₂ r (b :: rest)

/-- Python `s.replace(c, r₁r₂)` for a single-character pattern. -/
def expandChar (c r₁ r₂ : Char) (s : Str) : Str :=
  s.flatMap fun x => if x = c then [r₁, r₂] else [x]

/-- Insert into a Python-set model: append unless already present. -/
def addIfNew (acc : List Str) (s : Str) : List Str :=
  if s ∈ acc then acc else acc ++ [s]

/-- The three digraph/letter pairs of comparison_forms, as (first char of the
digraph, second char of the digraph, the Danish letter). -/
def danishDigraphs : List (Char × Char × Char) :=
  [('a', 'e', 'æ'), ('o', 'e', 'ø'), ('a', 'a', 'å')]

/-- Result type of comparison_forms. -/
structure ComparisonForms where
  normalized : Str
  alternates : List Str
deriving DecidableEq, Repr

/-- normalization.comparison_forms: the normalized form plus its
diacritic-substituted alternates, filtered of empties and sorted (the
Python set is realised as an insertion-ordered duplicate-free list, then
sorted just as `tuple(sorted(...))` does). -/
def comparisonForms (token : Str) : ComparisonForms :=
  let normalized := normalizeForTypoCompare token
  if normalized = [] then ⟨[], []⟩
  else
    let all := danishDigraphs.foldl
      (fun acc d =>
        let acc := if hasPair d.1 d.2.1 normalized then
            addIfNew acc (replacePair d.1 d.2.1 d.2.2 normalized) else acc
        if normalized.contains d.2.2 then
          addIfNew acc (expandChar d.2.2 d.1 d.2.1 normalized) else acc)
      [normalized]
    ⟨normalized, sortBy strLe (all.filter fun v => !v.isEmpty)⟩

/-- Uppercase letters of the modelled alphabet. -/
def upperChars : List Char := lowerPairs.map (·.1)

/-- Lowercase letters of the modelled alphabet. -/
def lowerChars : List Char := lowerPairs.map (·.2)

/-- A cased character (has an upper/lower distinction), for `str.isupper`. -/
def casedChar (c : Char) : Bool := upperChars.contains c || lowerChars.contains c

/-- Python `str.isupper()`: at least one cased character, and every cased
character is uppercase. -/
def pyIsUpper (s : Str) : Bool :=
  s.any casedChar && s.all fun c => !casedChar c || upperChars.contains c

/-- Python `str.isalpha()` per character, over the modelled alphabet. -/
def alphaChar (c : Char) : Bool := c.isAlpha || danishChars.contains c

/-- gating.EMAIL_RE `^\S+@\S+\.\S+$`: no whitespace anywhere, an `@` preceded
by at least one character, and a later `.` with at least one character between
`@` and `.` and at least one character after the `.`. -/
def emailLike (s : Str) : Bool :=
  s.all (fun c => !isWsChar c) &&
  ((List.range s.length).any fun i =>
    decide (1 ≤ i) && decide (s.getD i ' ' = '@') &&
    ((List.range s.length).any fun j =>
      decide (i + 2 ≤ j) && decide (j + 2 ≤ s.length) && decide (s.getD j ' ' = '.')))

/-- gating.URL_RE `^(https?://|www\.)\S+$`, case-insensitive: one of the three
schemes followed by at least one character, no whitespace anywhere. -/
def urlLike (s : Str) : Bool :=
  let t := toLowerStr s
  s.all (fun c => !isWsChar c) &&
  ((strBegins t ('h' :: 't' :: 't' :: 'p' :: ':' :: '/' :: '/' :: []) && decide (7 < s.length)) ||
   (strBegins t ('h' :: 't' :: 't' :: 'p' :: 's' :: ':' :: '/' :: '/' :: []) && decide (8 < s.length)) ||
   (strBegins t ('w' :: 'w' :: 'w' :: '.' :: []) && decide (4 < s.length)))

/-- gating.PATH_RE `^([A-Za-z]:\\|/).+`: a root (`/` or a drive letter with
`:\`) followed by at least one non-newline character (the regex `.`). -/
def pathLike : Str → Bool
  | '/' :: c :: _ => c != '\n'
  | a :: ':' :: '\\' :: c :: _ => a.isAlpha && c != '\n'
  | _ => false

/-- gating.GatingResult. -/
structure GatingResult where
  shouldRun : Bool
  reasonTags : List String
  properNounBias : Bool
deriving DecidableEq, Repr

/-- gating.should_run_typo_check: cheap pre-filter over (raw token, normalized
form, sentence position), with one reason tag per skip cause and the
proper-noun bias flag. -/
def shouldRunTypoCheck (token normalized : Str) (minLen : Nat) (sentenceStart : Bool) :
    GatingResult :=
  if normalized = [] then ⟨false, ["gating_skip_empty"], false⟩
  else if normalized.length < minLen then ⟨false, ["gating_skip_short"], false⟩
  else if emailLike normalized then ⟨false, ["gating_skip_email"], false⟩
  else if urlLike normalized then ⟨false, ["gating_skip_url"], false⟩
  else if pathLike normalized then ⟨false, ["gating_skip_path"], false⟩
  else if pyIsUpper token && token.any alphaChar then ⟨false, ["gating_skip_acronym"], false⟩
  else
    let digitCount := normalized.countP (·.isDigit)
    let total := normalized.length
    if total ≠ 0 ∧ ((0.3 : ℚ) < (digitCount : ℚ) / (total : ℚ)) then
      ⟨false, ["gating_skip_digit_ratio"], false⟩
    else if normalized.countP alphaChar = 0 then ⟨false, ["gating_skip_non_alpha"], false⟩
    else
      let bias := !sentenceStart && pyIsUpper (token.take 1) && token.any alphaChar
      ⟨true, if bias then ["gating_ok", "proper_noun_bias"] else ["gating_ok"], bias⟩

/-- typo_engine.TypoStatus. -/
inductive TypoStatus where
  | typo_likely
  | uncertain
  | new
deriving DecidableEq, Repr

/-- typo_engine.TypoSuggestion. -/
structure TypoSuggestion where
  value : Str
  score : ℝ
  sourceFlags : List String

/-- typo_engine.TypoResult. -/
structure TypoResult where
  status : TypoStatus
  normalized : Str
  suggestions : List TypoSuggestion
  confidence : ℝ
  reasonTags : List String
  latencyMs : ℚ

/-- cache.LRUCache: an ordered association list mirroring `OrderedDict`
(most recently used at the tail). -/
structure LRUCache where
  maxSize : Nat
  store : List (Str × TypoResult)

/-- Value currently associated with a key, if any. -/
def cacheLookup (c : LRUCache) (k : Str) : Option TypoResult :=
  (c.store.find? fun p => decide (p.1 = k)).map (·.2)

/-- cache.LRUCache.get: return the value and move the entry to the
most-recently-used end. -/
def LRUCache.getTouch (c : LRUCache) (k : Str) : Option TypoResult × LRUCache :=
  match c.store.find? fun p => decide (p.1 = k) with
  | none => (none, c)
  | some p =>
    (some p.2, { c with store := (c.store.filter fun q => !decide (q.1 = k)) ++ [(k, p.2)] })

/-- cache.LRUCache.set: (re-)insert at the most-recently-used end, then evict
from the least-recently-used end while over capacity. -/
def LRUCache.setEntry (c : LRUCache) (k : Str) (v : TypoResult) : LRUCache :=
  let s := (c.store.filter fun q => !decide (q.1 = k)) ++ [(k, v)]
  { c with store := if c.maxSize < s.length then s.drop (s.length - c.maxSize) else s }

/-- cache.LRUCache.clear. -/
def LRUCache.clearAll (c : LRUCache) : LRUCache := { c with store := [] }

/-- candidates.Candidate. -/
structure Candidate where
  value : Str
  distance : Nat
  sourceFlags : List String
  frequency : ℚ
deriving DecidableEq, Repr

/-- The recurrence computed by the row dynamic program of
candidates._levenshtein (unit-cost Levenshtein distance). -/
def levAux : Str → Str → Nat
  | [], b => b.length
  | a :: as, [] => (a :: as).length
  | a :: as, b :: bs =>
    min (levAux as (b :: bs) + 1)
      (min (levAux (a :: as) bs + 1) (levAux as bs + if a = b then 0 else 1))

/-- candidates._levenshtein with its early returns (named levenshteinDist here because Mathlib already uses the plain name). -/
def levenshteinDist (a b : Str) : Nat :=
  if a = b then 0
  else if a = [] then b.length
  else if b = [] then a.length
  else levAux a b

/-- Sort key of the candidate lists: (distance ascending, frequency
descending, value ascending). -/
def candLe (a b : Candidate) : Bool :=
  decide (a.distance < b.distance) ||
    (decide (a.distance = b.distance) &&
      (decide (b.frequency < a.frequency) ||
        (decide (a.frequency = b.frequency) && strLe a.value b.value)))

/-- The brute-force branch of candidates.CandidateProvider._suggest_one (the
path taken when the SymSpell dependency is absent): scan the union of the
suggestion words and the lowered user lexemes, keep entries within the
distance bound, tag and weight them by origin, sort, truncate. -/
def suggestOneFallback (suggestionWords userLemmas : List Str) (normalized : Str)
    (maxCandidates maxDistance : Nat) : List Candidate :=
  if normalized = [] then []
  else
    let words := (suggestionWords ++ userLemmas).dedup
    let scored := words.filterMap fun w =>
      let distance := levenshteinDist normalized w
      if distance ≤ maxDistance then
        some (if w ∈ userLemmas then
            (⟨w, distance, ["from_user_dict"], 100⟩ : Candidate)
          else ⟨w, distance, ["from_general_dict"], 10⟩)
      else none
    (sortBy candLe scored).take maxCandidates

/-- One lookup result delivered by the external SymSpell index. -/
structure SymResult where
  term : Str
  distance : Nat
  count : ℚ
deriving DecidableEq, Repr

/-- The SymSpell branch of candidates.CandidateProvider._suggest_one: truncate
the lookup results and wrap each as a Candidate tagged "from_symspell". -/
def suggestOneSym (results : List SymResult) (maxCandidates : Nat) : List Candidate :=
  (results.take maxCandidates).map fun r =>
    ⟨r.term, r.distance, ["from_symspell"], r.count⟩

/-- The merge step of candidates.CandidateProvider.suggest: keep the
lowest-distance occurrence of each candidate value. -/
def mergeCandidateStep (acc : List Candidate) (c : Candidate) : List Candidate :=
  match acc.find? fun p => decide (p.value = c.value) with
  | none => acc ++ [c]
  | some prev =>
    if c.distance < prev.distance then
      acc.map fun p => if p.value = c.value then c else p
    else acc

/-- ranking.RankedCandidate. -/
structure RankedCandidate where
  value : Str
  score : ℝ
  sourceFlags : List String
  distance : Nat
  priorScore : ℝ
  errorLikelihood : ℝ

/-- ranking._DANISH_SUBSTITUTION_COSTS. -/
def danishSubstitutionCosts : List ((Char × Char) × ℚ) :=
  [(('a', 'å'), 0.35), (('å', 'a'), 0.35), (('o', 'ø'), 0.35), (('ø', 'o'), 0.35),
   (('e', 'æ'), 0.45), (('æ', 'e'), 0.45)]

/-- ranking._substitution_cost: table lookup, defaulting to 1.0. -/
def substitutionCost (source target : Char) : ℚ :=
  ((danishSubstitutionCosts.find? fun p => decide (p.1 = (source, target))).map (·.2)).getD 1

/-- The cell recurrence computed bottom-up by the dp table of
ranking._weighted_edit_cost: `wDP a b i j` is the table entry `dp[i][j]`
(weighted cost between the first `i` characters of `a` and the first `j`
characters of `b`), with unit insert/delete cost, the Danish substitution
table, and adjacent transpositions at cost 0.6. -/
def wDP (a b : Str) : Nat → Nat → ℚ
  | 0, j => (j : ℚ)
  | i + 1, 0 => ((i + 1 : Nat) : ℚ)
  | i + 1, j + 1 =>
    let ca := a.getD i ' '
    let cb := b.getD j ' '
    let replaceCost : ℚ := if ca = cb then 0 else substitutionCost ca cb
    let best := min (wDP a b i (j + 1) + 1)
      (min (wDP a b (i + 1) j + 1) (wDP a b i j + replaceCost))
    if 1 ≤ i ∧ 1 ≤ j ∧ a.getD i ' ' = b.getD (j - 1) ' ' ∧
        a.getD (i - 1) ' ' = b.getD j ' ' then
      min best (wDP a b (i - 1) (j - 1) + 0.6)
    else best
  termination_by i j => (i, j)
  decreasing_by
  · exact Prod.Lex.left _ _ (by omega)
  · exact Prod.Lex.right _ (by omega)
  · exact Prod.Lex.left _ _ (by omega)
  · exact Prod.Lex.left _ _ (by omega)

/-- ranking._weighted_edit_cost: early return on equal strings, else the full
dp table over the lowercased strings. -/
def weightedEditCost (observed candidate : Str) : ℚ :=
  if observed = candidate then 0
  else
    let a := toLowerStr observed
    let b := toLowerStr candidate
    wDP a b a.length b.length

/-- ranking._error_likelihood: `exp(−cost/scale)` clipped to [0, 1]. -/
noncomputable def errorLikelihood (observed candidate : Str) : ℝ :=
  max 0 (min 1 (Real.exp (-(((weightedEditCost observed candidate : ℚ) : ℝ) /
    ((max observed.length (max candidate.length 1) : ℕ) : ℝ)))))

/-- ranking._prior_score: log-compressed frequency clipped to [0, 1]. -/
noncomputable def priorScore (frequency : ℚ) : ℝ :=
  max 0 (min 1 (Real.log (1 + ((max frequency 0 : ℚ) : ℝ)) / Real.log (1 + 200)))

/-- The source boost term of ranking.rank_candidates: 0.15 iff the candidate
carries the "from_user_dict" flag. -/
def rankSourceBoost (candidate : Candidate) : ℝ :=
  if "from_user_dict" ∈ candidate.sourceFlags then 0.15 else 0

/-- Sort key of ranking.rank_candidates: (score descending, distance
ascending, value ascending). -/
noncomputable def rankedLe (a b : RankedCandidate) : Bool :=
  @decide (b.score < a.score ∨ (a.score = b.score ∧ (a.distance < b.distance ∨
      (a.distance = b.distance ∧ strLe a.value b.value = true))))
    (Classical.propDecidable _)

/-- ranking.rank_candidates, parameterised by the external similarity backend
(rapidfuzz `fuzz.ratio` or difflib `SequenceMatcher.ratio`). -/
noncomputable def rankCandidates (sim : Str → Str → ℝ) (token : Str)
    (candidates : List Candidate) (knownLemmas : List Str) : List RankedCandidate :=
  let ranked := candidates.map fun candidate =>
    let similarity := sim token candidate.value
    let distanceScore : ℝ := max 0 (1 - ((candidate.distance : ℝ) /
      ((max token.length (max candidate.value.length 1) : ℕ) : ℝ)))
    let prior := priorScore candidate.frequency
    let errLik := errorLikelihood token candidate.value
    let sourceBoost := rankSourceBoost candidate
    let frequencyScore := prior * 0.1
    let lemmaFamilyBoost : ℝ := if candidate.value ∈ knownLemmas then 0.1 else 0
    let total := (0.28 * distanceScore) + (0.22 * similarity) + (0.20 * errLik) +
      sourceBoost + frequencyScore + lemmaFamilyBoost
    (⟨candidate.value, max 0 (min 1 total), candidate.sourceFlags, candidate.distance,
      prior, errLik⟩ : RankedCandidate)
  sortBy rankedLe ranked

/-- decision.DecisionResult. -/
structure DecisionResult where
  status : TypoStatus
  confidence : ℝ
  reasonTags : List String

/-- decision._top2_posterior: softmax-style comparison of the top two scores
at a fixed temperature. -/
noncomputable def top2Posterior (topScore : ℝ) (secondScore : Option ℝ)
    (temperature : ℝ) : ℝ :=
  match secondScore with
  | none => 1
  | some s =>
    let hi := max topScore s
    let a := Real.exp ((topScore - hi) / temperature)
    let b := Real.exp ((s - hi) / temperature)
    if a + b ≤ 0 then 0 else a / (a + b)

/-- decision._blended_confidence: anchor on the raw score, add posterior
separation, clamp to [0, 1]. -/
noncomputable def blendedConfidence (rawScore posterior : ℝ) : ℝ :=
  max 0 (min 1 ((0.78 * rawScore) + (0.22 * posterior)))

/-- decision._calibrate_threshold: mild prior-aware shift, clamped. -/
noncomputable def calibrateThreshold (base priorSc : ℝ) : ℝ :=
  max 0.2 (min 0.98 (base - ((priorSc - 0.5) * 0.02)))

open Classical in
/-- decision.decide_status: the calibrated decision over the ranked
candidates, honouring the proper-noun bias. -/
noncomputable def decideStatus (ranked : List RankedCandidate) (properNounBias : Bool)
    (typoThreshold uncertainThreshold minMargin : ℝ) : DecisionResult :=
  match ranked with
  | [] => ⟨TypoStatus.new, 0, ["weak_candidate_evidence"]⟩
  | top :: rest =>
    let second := rest.head?
    let posteriorTop2 := top2Posterior top.score (second.map (·.score)) 0.35
    let confidence := blendedConfidence top.score posteriorTop2
    let margin := match second with
      | some s => top.score - s.score
      | none => top.score
    let calibratedTypoThreshold := calibrateThreshold typoThreshold top.priorScore
    let calibratedUncertainThreshold := calibrateThreshold uncertainThreshold top.priorScore
    if properNounBias then
      if calibratedUncertainThreshold ≤ confidence then
        ⟨TypoStatus.uncertain, confidence, ["proper_noun_bias", "candidate_medium_confidence"]⟩
      else ⟨TypoStatus.new, confidence, ["proper_noun_bias"]⟩
    else if calibratedTypoThreshold ≤ confidence ∧ minMargin ≤ margin then
      ⟨TypoStatus.typo_likely, confidence,
        ["candidate_high_confidence", "clear_margin", "posterior_calibrated"]⟩
    else if top.distance ≤ 1 ∧ (0.82 : ℝ) ≤ top.errorLikelihood ∧
        calibratedTypoThreshold - 0.04 ≤ confidence ∧ minMargin * 0.75 ≤ margin then
      ⟨TypoStatus.typo_likely, confidence,
        ["candidate_high_confidence", "distance_one_boost", "posterior_calibrated"]⟩
    else if calibratedUncertainThreshold ≤ confidence then
      let tags := ["candidate_medium_confidence", "posterior_calibrated"]
      ⟨TypoStatus.uncertain, confidence,
        if margin < minMargin then tags ++ ["small_margin"] else tags⟩
    else ⟨TypoStatus.new, confidence, ["weak_candidate_evidence"]⟩

/-- typo_engine.DecisionThresholds (loaded from the policy file at engine
construction; carried as state here). -/
structure DecisionThresholds where
  typoThreshold : ℝ
  uncertainThreshold : ℝ
  minMargin : ℝ

/-- A row of the ignored_tokens table: token, scope, optional expiry. -/
structure IgnoredRow where
  token : Str
  scope : String
  expiresAt : Option ℚ
deriving DecidableEq, Repr

/-- A row of the token_events table written by TypoEngine._log_event. -/
structure EventRecord where
  rawToken : Str
  normalizedToken : Str
  finalStatus : TypoStatus
  topSuggestion : Option Str
  confidence : ℝ
  latencyMs : ℚ

/-- The mutable state owned by a TypoEngine instance together with its
persistent store: the dictionary word sets, the lexemes table, the
ignored_tokens table, the lazily loaded in-memory ignored set, the LRU cache,
the token_events log, the decision thresholds, and the external similarity
backend. -/
structure EngineState where
  generalWords : List Str
  suggestionWords : List Str
  dbLexemes : List Str
  dbIgnored : List IgnoredRow
  ignoredMem : Option (List Str)
  cache : LRUCache
  events : List EventRecord
  thresholds : DecisionThresholds
  similarity : Str → Str → ℝ

/-- candidates.CandidateProvider.is_known_dictionary_word: exact membership in
the general word sets only. -/
def isKnownDictionaryWord (st : EngineState) (token : Str) : Bool :=
  let normalized := toLowerStr (stripWs token)
  if normalized = [] then false else decide (normalized ∈ st.generalWords)

/-- candidates.CandidateProvider.general_word_count (the size of the general
word set). -/
def generalWordCount (st : EngineState) : Nat := st.generalWords.dedup.length

/-- TypoEngine._ignored_tokens_from_db: unexpired ignored tokens, as a set. -/
def ignoredFromDb (rows : List IgnoredRow) (now : ℚ) : List Str :=
  ((rows.filter fun r =>
    match r.expiresAt with
    | none => true
    | some e => decide (now < e)).map (·.token)).dedup

/-- TypoEngine._is_ignored's lazy load of the in-memory ignored set: returns
the set and the state with the set cached. -/
def loadIgnored (st : EngineState) (now : ℚ) : List Str × EngineState :=
  match st.ignoredMem with
  | some s => (s, st)
  | none =>
    let s := ignoredFromDb st.dbIgnored now
    (s, { st with ignoredMem := some s })

/-- TypoEngine._known_lemmas: the set of lemmas of the lexemes table. -/
def knownLemmasOf (st : EngineState) : List Str := st.dbLexemes.dedup

/-- TypoEngine._resolve_status_by_dictionary_membership. -/
def resolveStatusByDictionaryMembership (st : EngineState) (status : TypoStatus)
    (forms : ComparisonForms) : TypoStatus × List String :=
  let inDictionary := forms.alternates.any fun form => isKnownDictionaryWord st form
  if inDictionary then
    if status = TypoStatus.uncertain then
      (TypoStatus.new, ["uncertain_resolved_dictionary_hit"])
    else (status, [])
  else if status = TypoStatus.new ∨ status = TypoStatus.uncertain then
    (TypoStatus.typo_likely, ["dictionary_miss_forced_typo"])
  else (status, [])

/-- The token_events row written by TypoEngine._log_event for a result. -/
def mkEvent (token : Str) (result : TypoResult) : EventRecord :=
  ⟨token, result.normalized, result.status, (result.suggestions.head?).map (·.value),
    result.confidence, result.latencyMs⟩

/-- TypoEngine._log_event: append one event row. -/
def logEvent (st : EngineState) (token : Str) (result : TypoResult) : EngineState :=
  { st with events := st.events ++ [mkEvent token result] }

/-- typo_engine._max_distance_for_length. -/
def maxDistanceForLength (length : Nat) (largeDictionary : Bool) : Nat :=
  if largeDictionary then 1
  else if length ≤ 4 then 1
  else if length ≤ 8 then 2
  else 2

/-- The cache key `f"{normalized}|{int(sentence_start)}"`. -/
def mkKey (normalized : Str) (sentenceStart : Bool) : Str :=
  normalized ++ '|' :: [if sentenceStart then '1' else '0']

/-- candidates.CandidateProvider.suggest (brute-force backend): merge the
per-alternate candidate lists keeping the best distance per value, sort,
truncate. -/
def suggest (st : EngineState) (token : Str) (maxCandidates maxDistance : Nat) :
    List Candidate :=
  let forms := comparisonForms token
  let userLemmas := (st.dbLexemes.map toLowerStr).dedup
  let all := forms.alternates.foldl
    (fun acc form =>
      (suggestOneFallback st.suggestionWords userLemmas form maxCandidates maxDistance).foldl
        mergeCandidateStep acc)
    []
  (sortBy candLe all).take maxCandidates

/-- TypoEngine.classify_unknown.  `dt` is the latency reading taken for this
call and `now` the current timestamp used if the ignored set must be loaded.
Returns the result together with the updated engine state. -/
noncomputable def classifyUnknown (st : EngineState) (token : Str) (sentenceStart : Bool)
    (dt : ℚ) (now : ℚ) : TypoResult × EngineState :=
  let forms := comparisonForms token
  let gating := shouldRunTypoCheck token forms.normalized 3 sentenceStart
  if gating.shouldRun = false then
    let result : TypoResult := ⟨TypoStatus.new, forms.normalized, [], 0, gating.reasonTags, dt⟩
    (result, logEvent st token result)
  else
    let loaded := loadIgnored st now
    let st1 := loaded.2
    if forms.normalized ∈ loaded.1 then
      let result : TypoResult :=
        ⟨TypoStatus.new, forms.normalized, [], 0, ["gating_skip_ignored"], dt⟩
      (result, logEvent st1 token result)
    else
      let cacheKey := mkKey forms.normalized sentenceStart
      let got := st1.cache.getTouch cacheKey
      let st2 := { st1 with cache := got.2 }
      match got.1 with
      | some cached => (cached, st2)
      | none =>
        if forms.alternates.any (fun form => isKnownDictionaryWord st2 form) then
          let result : TypoResult := ⟨TypoStatus.new, forms.normalized, [], 0,
            gating.reasonTags ++ ["gating_skip_dictionary_exact"], dt⟩
          let st3 := { st2 with cache := st2.cache.setEntry cacheKey result }
          (result, logEvent st3 token result)
        else
          let maxDistance := maxDistanceForLength forms.normalized.length
            (decide (500000 ≤ generalWordCount st2))
          let candidates := suggest st2 forms.normalized 20 maxDistance
          let ranked := rankCandidates st2.similarity forms.normalized candidates
            (knownLemmasOf st2)
          let decision := decideStatus ranked gating.properNounBias
            st2.thresholds.typoThreshold st2.thresholds.uncertainThreshold
            st2.thresholds.minMargin
          let resolved := resolveStatusByDictionaryMembership st2 decision.status forms
          let suggestions := (ranked.take 3).map fun item =>
            (⟨item.value, item.score, item.sourceFlags⟩ : TypoSuggestion)
          let result : TypoResult := ⟨resolved.1, forms.normalized, suggestions,
            decision.confidence, gating.reasonTags ++ decision.reasonTags ++ resolved.2, dt⟩
          let st3 := { st2 with cache := st2.cache.setEntry cacheKey result }
          (result, logEvent st3 token result)

/-- TypoEngine.add_user_lexeme: update the fuzzy index (a no-op for the
brute-force backend, which re-reads the lexeme store on every suggestion),
then clear the cache unconditionally. -/
def addUserLexeme (st : EngineState) (_lemma : Str) : EngineState :=
  { st with cache := st.cache.clearAll }

/-- TypoEngine.invalidate_cache. -/
def invalidateCache (st : EngineState) : EngineState :=
  { st with cache := st.cache.clearAll }

/-- Conflict-key match of an ignored_tokens row on (token, scope). -/
def matchesRow (r : IgnoredRow) (token : Str) (scope : String) : Bool :=
  decide (r.token = token) && decide (r.scope = scope)

/-- Upsert into ignored_tokens with conflict key (token, scope): update the
expiry of the existing row, else append a new row. -/
def upsertIgnored (rows : List IgnoredRow) (token : Str) (scope : String)
    (expiresAt : Option ℚ) : List IgnoredRow :=
  if rows.any fun r => matchesRow r token scope then
    rows.map fun r =>
      if matchesRow r token scope then { r with expiresAt := expiresAt } else r
  else rows ++ [⟨token, scope, expiresAt⟩]

/-- The expiry stored for (token, scope), if a row exists. -/
def lookupIgnoredRow (rows : List IgnoredRow) (token : Str) (scope : String) :
    Option (Option ℚ) :=
  (rows.find? fun r => matchesRow r token scope).map (·.expiresAt)

/-- TypoEngine.add_ignored_token: no-op for an empty normalized form;
otherwise upsert the row, add to the in-memory set when that set is loaded,
and clear the cache. -/
def addIgnoredToken (st : EngineState) (token : Str) (scope : String)
    (expiresAt : Option ℚ) : EngineState :=
  let normalized := (comparisonForms token).normalized
  if normalized = [] then st
  else
    let st1 := { st with dbIgnored := upsertIgnored st.dbIgnored normalized scope expiresAt }
    let st2 := match st1.ignoredMem with
      | none => st1
      | some s =>
        { st1 with ignoredMem := some (if normalized ∈ s then s else s ++ [normalized]) }
    { st2 with cache := st2.cache.clearAll }

/-- token_classifier.Classification. -/
inductive Classification where
  | known
  | variation
  | typo_likely
  | uncertain
  | new
deriving DecidableEq, Repr

/-- token_classifier.MatchSource. -/
inductive MatchSource where
  | exactSrc
  | lemmaSrc
  | noneSrc
deriving DecidableEq, Repr

/-- The classification a TypoStatus maps to when the typo pipeline's status is
used as the overall classification. -/
def statusToClassification : TypoStatus → Classification
  | TypoStatus.typo_likely => Classification.typo_likely
  | TypoStatus.uncertain => Classification.uncertain
  | TypoStatus.new => Classification.new

/-- token_classifier.TokenClassification. -/
structure TokenClassification where
  surfaceToken : Str
  normalizedToken : Str
  lemmaCandidate : Option Str
  classification : Classification
  matchSource : MatchSource
  matchedLemma : Option Str
  matchedSurfaceForm : Option Str
  suggestions : List TypoSuggestion
  confidence : ℝ
  reasonTags : List String

/-- Python `str.split()` (on whitespace runs, ignoring edges). -/
def splitWsAux : Str → Str → List Str
  | [], acc => if acc = [] then [] else [acc.reverse]
  | c :: rest, acc =>
    if isWsChar c then
      if acc = [] then splitWsAux rest [] else acc.reverse :: splitWsAux rest []
    else splitWsAux rest (c :: acc)

/-- Python `str.split()`. -/
def splitWs (s : Str) : List Str := splitWsAux s []

/-- Python `" ".join(words)`. -/
def joinWords : List Str → Str
  | [] => []
  | [w] => w
  | w :: ws => w ++ ' ' :: joinWords ws

/-- token_classifier.normalize_token: collapse internal whitespace to single
spaces and lowercase, for stable exact lookup. -/
def normalizeToken (token : Str) : Str := toLowerStr (joinWords (splitWs (stripWs token)))

/-- lemma_candidate_ranker.normalize_candidate (the same collapse-and-lower
as normalize_token). -/
def normalizeCandidate (text : Str) : Str := toLowerStr (joinWords (splitWs (stripWs text)))

/-- lemma_candidate_ranker.merge_candidates: normalized, deduplicated,
order-preserving merge of the two candidate lists. -/
def mergeLemmaCandidates (primaryTagCandidates fallbackCandidates : List Str) : List Str :=
  (primaryTagCandidates ++ fallbackCandidates).foldl
    (fun acc raw =>
      let candidate := normalizeCandidate raw
      if candidate = [] ∨ candidate ∈ acc then acc else acc ++ [candidate])
    []

/-- lemma_candidate_ranker._INFLECTION_SUFFIXES. -/
def inflectionSuffixes : List Str :=
  ["ens".data, "ets".data, "es".data, "en".data, "et".data, "erne".data, "ene".data,
   "er".data, "est".data, "st".data, "ede".data, "te".data, "s".data, "t".data]

/-- lemma_candidate_ranker._LOW_CONFIDENCE_TAGS. -/
def lowConfidenceTags : List String := ["", "X", "PUNCT", "SYM"]

/-- lemma_candidate_ranker._VERB_LIKE_TAGS. -/
def verbLikeTags : List String := ["VERB", "AUX"]

/-- The score assigned to one candidate by lemma_candidate_ranker.rank_candidates
(index is the candidate's position in the normalized candidate list). -/
def lemmaCandidateScore (normalizedSurface : Str) (normalizedTag : String)
    (primarySet : List Str) (index : Nat) (candidate : Str) : ℚ :=
  let score : ℚ := 0
  let score := if ¬ normalizedTag ∈ lowConfidenceTags then
      score + (if candidate ∈ primarySet then -0.50 else 1.10)
    else score
  let score := if candidate = normalizedSurface then score + (-1.10) else score
  let score := score + 0.25 * (candidate.length : ℚ)
  let score := score + (-1.10) * |(normalizedSurface.length : ℚ) - (candidate.length : ℚ)|
  let score := if inflectionSuffixes.any (fun suf => strEnds candidate suf) then
      score + 1.90
    else score
  let score := if candidate.length ≤ 2 then score + (-0.80) else score
  let score := if normalizedTag ∈ lowConfidenceTags then score + 0.90 else score
  let score := if normalizedTag ∈ verbLikeTags then score + (-1.00) else score
  let score := if candidate.length < normalizedSurface.length ∧
      strBegins normalizedSurface candidate then score + (-0.12)
    else score
  score + 0.14 * (index : ℚ)

/-- lemma_candidate_ranker.rank_candidates: deterministic weighted ranking of
normalized lemma candidates (sorted by (score, input index, value)). -/
def rankLemmaCandidates (surface : Str) (tag : Option String) (candidates : List Str)
    (primaryTagCandidates : List Str) : List Str :=
  let normalizedSurface := normalizeCandidate surface
  let normalizedTag := (tag.getD "").toUpper
  let normalizedCandidates := candidates.foldl
    (fun acc raw =>
      let candidate := normalizeCandidate raw
      if candidate = [] then acc else acc ++ [candidate])
    []
  if normalizedCandidates = [] then []
  else
    let primarySet := primaryTagCandidates.foldl
      (fun acc c =>
        let n := normalizeCandidate c
        if n = [] ∨ n ∈ acc then acc else acc ++ [n])
      []
    let scored := normalizedCandidates.enum.map fun p =>
      (lemmaCandidateScore normalizedSurface normalizedTag primarySet p.1 p.2, p.1, p.2)
    let sortedScored := sortBy
      (fun a b => decide (a.1 < b.1) ||
        (decide (a.1 = b.1) && (decide (a.2.1 < b.2.1) ||
          (decide (a.2.1 = b.2.1) && strLe a.2.2 b.2.2))))
      scored
    let ranked := sortedScored.map (·.2.2)
    if normalizedTag = "NOUN" ∧ normalizedSurface.length ≤ 3 ∧ normalizedSurface ∈ ranked then
      normalizedSurface :: ranked.filter fun c => !decide (c = normalizedSurface)
    else ranked

/-- lemma_candidate_ranker.pick_best_candidate_in_lexicon: the first ranked
candidate present in the lexeme set. -/
def pickBestCandidateInLexicon (surface : Str) (tag : Option String)
    (primaryTagCandidates fallbackCandidates lexemeSet : List Str) : Option Str :=
  let merged := mergeLemmaCandidates primaryTagCandidates fallbackCandidates
  let ranked := rankLemmaCandidates surface tag merged primaryTagCandidates
  ranked.find? fun c => decide (c ∈ lexemeSet)

/-- The knowledge-store and adapter state visible to LemmaAwareClassifier: the
surface_forms join rows (form, lemma), the lexemes table, the two opaque
lemmatizer capabilities, and the optional typo engine. -/
structure ClassifierState where
  surfaceForms : List (Str × Str)
  lexemes : List Str
  lemmaCandidatesForToken : Str → List Str
  lemmaForToken : Str → Option Str
  typoEngine : Option EngineState

/-- LemmaAwareClassifier._lemma_candidates_for_token: normalized deduplicated
adapter candidates, falling back to the single lemma_for_token lemma. -/
def lemmaCandidatesFor (st : ClassifierState) (normalizedToken : Str) : List Str :=
  let rawCandidates := st.lemmaCandidatesForToken normalizedToken
  let candidates := rawCandidates.foldl
    (fun acc raw =>
      let candidate := normalizeToken raw
      if candidate = [] ∨ candidate ∈ acc then acc else acc ++ [candidate])
    []
  if candidates ≠ [] then candidates
  else
    let fallback := normalizeToken ((st.lemmaForToken normalizedToken).getD [])
    if fallback = [] then [] else [fallback]

/-- LemmaAwareClassifier._new_with_typo_fallback: run the typo pipeline (when
an engine is configured) and lift its result into a TokenClassification. -/
noncomputable def newWithTypoFallback (st : ClassifierState) (token normalized : Str)
    (sentenceStart : Bool) (dt now : ℚ) : TokenClassification × ClassifierState :=
  match st.typoEngine with
  | none =>
    (⟨token, normalized, none, Classification.new, MatchSource.noneSrc, none, none, [], 0, []⟩,
      st)
  | some engine =>
    let run := classifyUnknown engine token sentenceStart dt now
    let typoResult := run.1
    (⟨token, (if typoResult.normalized = [] then normalized else typoResult.normalized),
      (typoResult.suggestions.head?).map (·.value),
      statusToClassification typoResult.status, MatchSource.noneSrc, none, none,
      typoResult.suggestions, typoResult.confidence, typoResult.reasonTags⟩,
      { st with typoEngine := some run.2 })

/-- LemmaAwareClassifier._classify_with_connection. -/
noncomputable def classifyWithConnection (st : ClassifierState) (token : Str)
    (sentenceStart : Bool) (dt now : ℚ) : TokenClassification × ClassifierState :=
  let normalized := normalizeToken token
  if normalized = [] then
    (⟨token, normalized, none, Classification.new, MatchSource.noneSrc, none, none, [], 0, []⟩,
      st)
  else
    match st.surfaceForms.find? fun p => decide (p.1 = normalized) with
    | some row =>
      (⟨token, normalized, some row.2, Classification.known, MatchSource.exactSrc,
        some row.2, some row.1, [], 0, ["exact_match"]⟩, st)
    | none =>
      match st.lexemes.find? fun l => decide (l = normalized) with
      | some lemmaRow =>
        (⟨token, normalized, some lemmaRow, Classification.known, MatchSource.exactSrc,
          some lemmaRow, some normalized, [], 0, ["exact_match"]⟩, st)
      | none =>
        let lemmaCandidates := lemmaCandidatesFor st normalized
        if lemmaCandidates = [] then
          newWithTypoFallback st token normalized sentenceStart dt now
        else
          let lemmaRows := st.lexemes.filter fun l => decide (l ∈ lemmaCandidates)
          let lexemeSet := (lemmaRows.map normalizeCandidate).dedup
          let matchedLemma := pickBestCandidateInLexicon normalized none lemmaCandidates []
            lexemeSet
          match matchedLemma with
          | none =>
            let res := newWithTypoFallback st token normalized sentenceStart dt now
            if res.1.lemmaCandidate = none then
              ({ res.1 with lemmaCandidate := lemmaCandidates.head? }, res.2)
            else res
          | some m =>
            (⟨token, normalized, lemmaCandidates.head?, Classification.variation,
              MatchSource.lemmaSrc, some m, none, [], 0, ["lemma_match"]⟩, st)

/-- LemmaAwareClassifier.classify: one token, via a fresh connection, with the
default mid-sentence position. -/
noncomputable def classifyToken (st : ClassifierState) (token : Str) (dt now : ℚ) :
    TokenClassification × ClassifierState :=
  classifyWithConnection st token false dt now

/-- The enumerate loop of LemmaAwareClassifier.classify_many: each token is
classified with `sentence_start = (index == 0)`, threading the engine state. -/
noncomputable def classifyManyGo (st : ClassifierState) :
    List Str → Nat → ℚ → ℚ → List TokenClassification × ClassifierState
  | [], _, _, _ => ([], st)
  | t :: ts, index, dt, now =>
    let r := classifyWithConnection st t (decide (index = 0)) dt now
    let rest := classifyManyGo r.2 ts (index + 1) dt now
    (r.1 :: rest.1, rest.2)

/-- LemmaAwareClassifier.classify_many. -/
noncomputable def classifyMany (st : ClassifierState) (tokens : List Str) (dt now : ℚ) :
    List TokenClassification × ClassifierState :=
  if tokens = [] then ([], st) else classifyManyGo st tokens 0 dt now

/-- Leading-flag recursion following the spec's words for batch mode: only the
first token of the batch is treated as sentence-initial. -/
noncomputable def classifyManyFirstFlag (st : ClassifierState) :
    List Str → Bool → ℚ → ℚ → List TokenClassification × ClassifierState
  | [], _, _, _ => ([], st)
  | t :: ts, first, dt, now =>
    let r := classifyWithConnection st t first dt now
    let rest := classifyManyFirstFlag r.2 ts false dt now
    (r.1 :: rest.1, rest.2)

/-! ### Normalization lemmas (claims C4 and C8) -/

/-- The shape shared by `stripWs` and `stripEdgesOnce`: drop a predicate from
both ends. -/
def edgeStrip (p : Char → Bool) (s : Str) : Str :=
  ((s.dropWhile p).reverse.dropWhile p).reverse

theorem stripWs_eq_edgeStrip (s : Str) : stripWs s = edgeStrip isWsChar s := rfl

theorem stripEdgesOnce_eq_edgeStrip (s : Str) :
    stripEdgesOnce s = edgeStrip (fun c => !isWordChar c) s := rfl

theorem dropWhile_dropWhile (p : Char → Bool) (l : Str) :
    List.dropWhile p (List.dropWhile p l) = List.dropWhile p l := by
  induction l with
  | nil => rfl
  | cons c t ih =>
    by_cases h : p c
    · simp [List.dropWhile_cons, h, ih]
    · simp [List.dropWhile_cons, h]

theorem head_dropWhile_false (p : Char → Bool) :
    ∀ {l c t}, List.dropWhile p l = c :: t → p c = false := by
  intro l
  induction l with
  | nil => intro c t h; simp at h
  | cons a l ih =>
    intro c t h
    rw [List.dropWhile_cons] at h
    by_cases hp : p a
    · rw [if_pos hp] at h
      exact ih h
    · rw [if_neg hp] at h
      cases h
      simpa using hp

theorem dropWhile_eq_self_of (p : Char → Bool) (l : Str)
    (h : ∀ c t, l = c :: t → p c = false) : List.dropWhile p l = l := by
  cases l with
  | nil => rfl
  | cons c t => simp [List.dropWhile_cons, h c t rfl]

theorem exists_append_dropWhile (p : Char → Bool) (l : Str) :
    ∃ q, l = q ++ List.dropWhile p l := by
  induction l with
  | nil => exact ⟨[], rfl⟩
  | cons a l ih =>
    by_cases h : p a
    · obtain ⟨q, hq⟩ := ih
      exact ⟨a :: q, by simp [List.dropWhile_cons, h]; exact hq⟩
    · exact ⟨[], by simp [List.dropWhile_cons, h]⟩

theorem mem_edgeStrip (p : Char → Bool) (s : Str) {c : Char}
    (h : c ∈ edgeStrip p s) : c ∈ s := by
  unfold edgeStrip at h
  rw [List.mem_reverse] at h
  have h1 := (List.dropWhile_sublist p).subset h
  rw [List.mem_reverse] at h1
  exact (List.dropWhile_sublist p).subset h1

theorem edgeStrip_head (p : Char → Bool) (s : Str) {c : Char} {t : Str}
    (h : edgeStrip p s = c :: t) : p c = false := by
  obtain ⟨q, hq⟩ := exists_append_dropWhile p (List.dropWhile p s).reverse
  have hs : List.dropWhile p s = c :: (t ++ q.reverse) := by
    have : List.dropWhile p s = ((List.dropWhile p s).reverse).reverse := by simp
    rw [this, hq]
    unfold edgeStrip at h
    simp only [List.reverse_append]
    rw [show ((List.dropWhile p s).reverse.dropWhile p).reverse = c :: t from h]
    simp
  exact head_dropWhile_false p hs

theorem edgeStrip_last (p : Char → Bool) (s : Str) {c : Char} {t : Str}
    (h : (edgeStrip p s).reverse = c :: t) : p c = false := by
  unfold edgeStrip at h
  rw [List.reverse_reverse] at h
  exact head_dropWhile_false p h

theorem edgeStrip_eq_self (p : Char → Bool) (s : Str)
    (hh : ∀ c t, s = c :: t → p c = false)
    (hl : ∀ c t, s.reverse = c :: t → p c = false) : edgeStrip p s = s := by
  unfold edgeStrip
  rw [dropWhile_eq_self_of p s hh, dropWhile_eq_self_of p s.reverse hl,
    List.reverse_reverse]

theorem edgeStrip_idem (p : Char → Bool) (s : Str) :
    edgeStrip p (edgeStrip p s) = edgeStrip p s := by
  apply edgeStrip_eq_self
  · intro c t h
    exact edgeStrip_head p s h
  · intro c t h
    exact edgeStrip_last p s h

theorem stripEdgesLoop_eq (n : Nat) (s : Str) (hn : 1 ≤ n) :
    stripEdgesLoop n s = stripEdgesOnce s := by
  induction n generalizing s with
  | zero => omega
  | succ m ih =>
    simp only [stripEdgesLoop]
    by_cases h : stripEdgesOnce s = s
    · simp [h]
    · simp only [h, if_false]
      cases m with
      | zero => rfl
      | succ k =>
        rw [ih (stripEdgesOnce s) (by omega)]
        simp only [stripEdgesOnce_eq_edgeStrip]
        exact edgeStrip_idem _ s

theorem normalize_eq_once (t : Str) :
    normalizeForTypoCompare t =
      stripEdgesOnce (normalizeApostrophes (toLowerStr (stripWs t))) :=
  stripEdgesLoop_eq _ _ (by omega)

theorem lowerChar_mem_or (c : Char) : lowerChar c = c ∨ lowerChar c ∈ lowerChars := by
  cases hf : lowerPairs.find? fun p => decide (p.1 = c) with
  | none =>
    left
    simp [lowerChar, hf]
  | some p =>
    right
    have hp : lowerChar c = p.2 := by simp [lowerChar, hf]
    rw [hp]
    exact List.mem_map.2 ⟨p, List.mem_of_find?_eq_some hf, rfl⟩

theorem lowerChars_fixed : ∀ c ∈ lowerChars, lowerChar c = c := by decide

theorem lowerChar_idem (c : Char) : lowerChar (lowerChar c) = lowerChar c := by
  rcases lowerChar_mem_or c with h | h
  · rw [h]
    exact h
  · exact lowerChars_fixed _ h

theorem aposChar_idem (c : Char) : aposChar (aposChar c) = aposChar c := by
  unfold aposChar
  split_ifs <;> simp_all

theorem lowerChar_aposChar_lowerChar (d : Char) :
    lowerChar (aposChar (lowerChar d)) = aposChar (lowerChar d) := by
  unfold aposChar
  split_ifs with h1 h2
  · decide
  · decide
  · exact lowerChar_idem d

theorem aposChar_aposChar_lowerChar (d : Char) :
    aposChar (aposChar (lowerChar d)) = aposChar (lowerChar d) :=
  aposChar_idem _

theorem isWordChar_not_ws {c : Char} (h : isWordChar c = true) : isWsChar c = false := by
  cases hv : isWsChar c
  · rfl
  · exfalso
    have hmem : c ∈ [' ', '\t', '\n', '\r', '\x0b', '\x0c'] := by
      simpa [isWsChar] using hv
    fin_cases hmem <;> exact absurd h (by decide)

theorem mem_normalize_shape (x : Str) {c : Char} (h : c ∈ normalizeForTypoCompare x) :
    ∃ d, c = aposChar (lowerChar d) := by
  rw [normalize_eq_once, stripEdgesOnce_eq_edgeStrip] at h
  have h1 := mem_edgeStrip _ _ h
  unfold normalizeApostrophes at h1
  obtain ⟨a, ha, rfl⟩ := List.mem_map.1 h1
  unfold toLowerStr at ha
  obtain ⟨d, _, rfl⟩ := List.mem_map.1 ha
  exact ⟨d, rfl⟩

theorem toLowerStr_normalize (x : Str) :
    toLowerStr (normalizeForTypoCompare x) = normalizeForTypoCompare x := by
  unfold toLowerStr
  have : ∀ c ∈ normalizeForTypoCompare x, lowerChar c = id c := by
    intro c hc
    obtain ⟨d, rfl⟩ := mem_normalize_shape x hc
    exact lowerChar_aposChar_lowerChar d
  rw [List.map_congr_left this, List.map_id]

theorem normalizeApostrophes_normalize (x : Str) :
    normalizeApostrophes (normalizeForTypoCompare x) = normalizeForTypoCompare x := by
  unfold normalizeApostrophes
  have : ∀ c ∈ normalizeForTypoCompare x, aposChar c = id c := by
    intro c hc
    obtain ⟨d, rfl⟩ := mem_normalize_shape x hc
    exact aposChar_aposChar_lowerChar d
  rw [List.map_congr_left this, List.map_id]

theorem normalize_head_word (x : Str) {c : Char} {t : Str}
    (h : normalizeForTypoCompare x = c :: t) : isWordChar c = true := by
  rw [normalize_eq_once, stripEdgesOnce_eq_edgeStrip] at h
  have := edgeStrip_head _ _ h
  simpa using this

theorem normalize_last_word (x : Str) {c : Char} {t : Str}
    (h : (normalizeForTypoCompare x).reverse = c :: t) : isWordChar c = true := by
  rw [normalize_eq_once, stripEdgesOnce_eq_edgeStrip] at h
  have := edgeStrip_last _ _ h
  simpa using this

theorem stripWs_normalize (x : Str) :
    stripWs (normalizeForTypoCompare x) = normalizeForTypoCompare x := by
  rw [stripWs_eq_edgeStrip]
  apply edgeStrip_eq_self
  · intro c t h
    exact isWordChar_not_ws (normalize_head_word x h)
  · intro c t h
    exact isWordChar_not_ws (normalize_last_word x h)

theorem stripEdgesOnce_normalize (x : Str) :
    stripEdgesOnce (normalizeForTypoCompare x) = normalizeForTypoCompare x := by
  conv_lhs => rw [normalize_eq_once]
  conv_rhs => rw [normalize_eq_once]
  simp only [stripEdgesOnce_eq_edgeStrip]
  exact edgeStrip_idem _ _

theorem normalizeForTypo_idem (x : Str) :
    normalizeForTypoCompare (normalizeForTypoCompare x) = normalizeForTypoCompare x := by
  rw [normalize_eq_once (normalizeForTypoCompare x), stripWs_normalize,
    toLowerStr_normalize, normalizeApostrophes_normalize, stripEdgesOnce_normalize]

theorem mem_insertBy {α : Type} (le : α → α → Bool) (x : α) (l : List α) (a : α) :
    a ∈ insertBy le x l ↔ a = x ∨ a ∈ l := by
  induction l with
  | nil => simp [insertBy]
  | cons y ys ih =>
    simp only [insertBy]
    split
    · simp [List.mem_cons]
    · simp only [List.mem_cons, ih]
      tauto

theorem mem_sortBy {α : Type} (le : α → α → Bool) (l : List α) (a : α) :
    a ∈ sortBy le l ↔ a ∈ l := by
  induction l with
  | nil => simp [sortBy]
  | cons x xs ih => simp [sortBy, mem_insertBy, ih]

theorem subset_addIfNew (acc : List Str) (s : Str) : acc ⊆ addIfNew acc s := by
  unfold addIfNew
  split
  · exact fun _ h => h
  · exact fun _ h => List.mem_append_left _ h

theorem mem_comparisonForms_all
    (step : List Str → Char × Char × Char → List Str)
    (hstep : ∀ acc d, acc ⊆ step acc d) (ds : List (Char × Char × Char))
    (acc : List Str) : acc ⊆ ds.foldl step acc := by
  induction ds generalizing acc with
  | nil => exact fun _ h => h
  | cons d ds ih => exact fun a h => ih (step acc d) (hstep acc d h)

theorem comparisonForms_normalized (x : Str) :
    (comparisonForms x).normalized = normalizeForTypoCompare x := by
  simp only [comparisonForms]
  split
  · simp_all
  · rfl

theorem comparisonForms_alternates_ne_nil (x : Str)
    (h : normalizeForTypoCompare x ≠ []) : (comparisonForms x).alternates ≠ [] := by
  simp only [comparisonForms]
  rw [if_neg h]
  simp only
  have hstep : ∀ (acc : List Str) (d : Char × Char × Char),
      acc ⊆ (fun acc d =>
        let acc' := if hasPair d.1 d.2.1 (normalizeForTypoCompare x) then
            addIfNew acc (replacePair d.1 d.2.1 d.2.2 (normalizeForTypoCompare x)) else acc
        if (normalizeForTypoCompare x).contains d.2.2 then
          addIfNew acc' (expandChar d.2.2 d.1 d.2.1 (normalizeForTypoCompare x)) else acc')
        acc d := by
    intro acc d a ha
    simp only
    split
    · split
      · exact subset_addIfNew _ _ (subset_addIfNew _ _ ha)
      · exact subset_addIfNew _ _ ha
    · split
      · exact subset_addIfNew _ _ ha
      · exact ha
  have hmem : normalizeForTypoCompare x ∈ danishDigraphs.foldl _ [normalizeForTypoCompare x] :=
    mem_comparisonForms_all _ hstep danishDigraphs
      [normalizeForTypoCompare x] (List.mem_singleton.2 rfl)
  intro hnil
  have : normalizeForTypoCompare x ∈ ([] : List Str) := by
    rw [← hnil]
    rw [mem_sortBy]
    rw [List.mem_filter]
    refine ⟨hmem, ?_⟩
    simp [List.isEmpty_iff, h]
  simp at this

/-- C4: normalization is idempotent, and the alternates tuple produced by
comparison_forms is non-empty exactly when the normalized form is non-empty. -/
theorem c4_normalization_idempotent_and_alternates :
    (∀ x : Str, normalizeForTypoCompare (normalizeForTypoCompare x) =
      normalizeForTypoCompare x) ∧
    (∀ x : Str, (comparisonForms x).alternates ≠ [] ↔ normalizeForTypoCompare x ≠ []) := by
  constructor
  · exact normalizeForTypo_idem
  · intro x
    constructor
    · intro halt hnorm
      apply halt
      unfold comparisonForms
      rw [if_pos hnorm]
    · exact comparisonForms_alternates_ne_nil x

/-- The collapse of internal whitespace to single spaces described by the
spec's Normalizer section (stated following the spec's words, for comparison
with what normalize_for_typo_compare actually does). -/
def collapseWsSpec (s : Str) : Str := joinWords (splitWs (stripWs s))

/-- C8 counterexample: normalize_for_typo_compare does not collapse internal
whitespace: on the input "a  b" (two internal spaces) the output keeps both
spaces, so it differs from its whitespace-collapsed form. -/
theorem c8_counterexample_no_ws_collapse :
    collapseWsSpec (normalizeForTypoCompare ("a  b".data)) ≠
      normalizeForTypoCompare ("a  b".data) := by decide

/-- C8 (amended): the normalized output is lowercase and has its
leading/trailing non-word, non-Danish-vowel characters stripped to a stable
fixed point, but internal whitespace is preserved, not collapsed. -/
theorem c8_normalize_lowercase_stripped :
    ∀ x : Str, toLowerStr (normalizeForTypoCompare x) = normalizeForTypoCompare x ∧
      stripEdgesOnce (normalizeForTypoCompare x) = normalizeForTypoCompare x :=
  fun x => ⟨toLowerStr_normalize x, stripEdgesOnce_normalize x⟩

/-! ### Weighted edit cost lemmas (claim C7) -/

theorem substitutionCost_nonneg (a b : Char) : 0 ≤ substitutionCost a b := by
  cases hf : danishSubstitutionCosts.find? fun p => decide (p.1 = (a, b)) with
  | none =>
    unfold substitutionCost
    rw [hf]
    norm_num
  | some p =>
    have hv : substitutionCost a b = p.2 := by
      unfold substitutionCost
      rw [hf]
      rfl
    rw [hv]
    have hp := List.mem_of_find?_eq_some hf
    simp only [danishSubstitutionCosts, List.mem_cons, List.mem_singleton,
      List.not_mem_nil, or_false] at hp
    rcases hp with rfl | rfl | rfl | rfl | rfl | rfl <;> norm_num

theorem wDP_row_zero (a b : Str) (j : Nat) : wDP a b 0 j = (j : ℚ) := by
  rw [wDP.eq_def]

theorem wDP_col_zero (a b : Str) (i : Nat) : wDP a b i 0 = (i : ℚ) := by
  cases i with
  | zero => rw [wDP.eq_def]
  | succ m => rw [wDP.eq_def]

theorem wDP_succ (a b : Str) (i j : Nat) :
    wDP a b (i + 1) (j + 1) =
      (let best := min (wDP a b i (j + 1) + 1)
        (min (wDP a b (i + 1) j + 1)
          (wDP a b i j +
            if a.getD i ' ' = b.getD j ' ' then 0
            else substitutionCost (a.getD i ' ') (b.getD j ' ')))
      if 1 ≤ i ∧ 1 ≤ j ∧ a.getD i ' ' = b.getD (j - 1) ' ' ∧
          a.getD (i - 1) ' ' = b.getD j ' ' then
        min best (wDP a b (i - 1) (j - 1) + 0.6)
      else best) := by
  rw [wDP.eq_def]

theorem wDP_succ_le_best (a b : Str) (i j : Nat) :
    wDP a b (i + 1) (j + 1) ≤
      min (wDP a b i (j + 1) + 1)
        (min (wDP a b (i + 1) j + 1)
          (wDP a b i j +
            if a.getD i ' ' = b.getD j ' ' then 0
            else substitutionCost (a.getD i ' ') (b.getD j ' '))) := by
  rw [wDP_succ]
  dsimp only
  split
  · exact min_le_left _ _
  · exact le_refl _

theorem wDP_succ_le_transposition (a b : Str) (i j : Nat)
    (h : 1 ≤ i ∧ 1 ≤ j ∧ a.getD i ' ' = b.getD (j - 1) ' ' ∧
      a.getD (i - 1) ' ' = b.getD j ' ') :
    wDP a b (i + 1) (j + 1) ≤ wDP a b (i - 1) (j - 1) + 0.6 := by
  rw [wDP_succ]
  dsimp only
  rw [if_pos h]
  exact min_le_right _ _

theorem wDP_nonneg (a b : Str) : ∀ n i j, i + j ≤ n → 0 ≤ wDP a b i j := by
  intro n
  induction n with
  | zero =>
    intro i j h
    have hi : i = 0 := by omega
    have hj : j = 0 := by omega
    subst hi; subst hj
    rw [wDP_row_zero]
    norm_num
  | succ m ih =>
    intro i j h
    match i, j with
    | 0, j =>
      rw [wDP_row_zero]
      positivity
    | i + 1, 0 =>
      rw [wDP_col_zero]
      positivity
    | i + 1, j + 1 =>
      have h1 : 0 ≤ wDP a b i (j + 1) + 1 :=
        add_nonneg (ih i (j + 1) (by omega)) (by norm_num)
      have h2 : 0 ≤ wDP a b (i + 1) j + 1 :=
        add_nonneg (ih (i + 1) j (by omega)) (by norm_num)
      have h3 : 0 ≤ wDP a b i j +
          (if a.getD i ' ' = b.getD j ' ' then 0
            else substitutionCost (a.getD i ' ') (b.getD j ' ')) := by
        apply add_nonneg (ih i j (by omega))
        split
        · exact le_refl 0
        · exact substitutionCost_nonneg _ _
      rw [wDP_succ]
      dsimp only
      split
      · apply le_min
        · exact le_min h1 (le_min h2 h3)
        · exact add_nonneg (ih (i - 1) (j - 1) (by omega)) (by norm_num)
      · exact le_min h1 (le_min h2 h3)

theorem wDP_self (s : Str) : ∀ i, wDP s s i i = 0 := by
  intro i
  induction i with
  | zero =>
    rw [wDP_row_zero]
    norm_num
  | succ m ih =>
    apply le_antisymm
    · calc wDP s s (m + 1) (m + 1) ≤
          min (wDP s s m (m + 1) + 1)
            (min (wDP s s (m + 1) m + 1)
              (wDP s s m m +
                if s.getD m ' ' = s.getD m ' ' then 0
                else substitutionCost (s.getD m ' ') (s.getD m ' '))) :=
            wDP_succ_le_best s s m m
      _ ≤ wDP s s m m + if s.getD m ' ' = s.getD m ' ' then 0
            else substitutionCost (s.getD m ' ') (s.getD m ' ') :=
            le_trans (min_le_right _ _) (min_le_right _ _)
      _ = 0 := by rw [ih, if_pos rfl, add_zero]
    · exact wDP_nonneg s s (m + 1 + (m + 1)) (m + 1) (m + 1) (le_refl _)

theorem weightedEditCost_self (s : Str) : weightedEditCost s s = 0 := by
  unfold weightedEditCost
  rw [if_pos rfl]

theorem substitutionCost_default (a b : Char)
    (h : (a, b) ∈ danishSubstitutionCosts.map (·.1) → False) :
    substitutionCost a b = 1 := by
  unfold substitutionCost
  cases hf : danishSubstitutionCosts.find? fun p => decide (p.1 = (a, b)) with
  | none => rfl
  | some p =>
    exfalso
    apply h
    have hp := List.mem_of_find?_eq_some hf
    have heq : p.1 = (a, b) := by
      have := List.find?_some hf
      simpa using this
    exact heq ▸ List.mem_map.2 ⟨p, hp, rfl⟩

theorem weightedEditCost_transposition :
    weightedEditCost ("ab".data) ("ba".data) = 0.6 := by
  have hne : ("ab".data : Str) ≠ "ba".data := by decide
  have hl : toLowerStr ("ab".data) = ['a', 'b'] := by decide
  have hr : toLowerStr ("ba".data) = ['b', 'a'] := by decide
  have hab : substitutionCost 'a' 'b' = 1 := rfl
  have hba : substitutionCost 'b' 'a' = 1 := rfl
  have hcab : ¬ ('a' : Char) = 'b' := by decide
  have hcba : ¬ ('b' : Char) = 'a' := by decide
  unfold weightedEditCost
  rw [if_neg hne]
  simp only [hl, hr]
  have h00 : wDP ['a', 'b'] ['b', 'a'] 0 0 = 0 := by
    rw [wDP_row_zero]; norm_num
  have h01 : wDP ['a', 'b'] ['b', 'a'] 0 1 = 1 := by
    rw [wDP_row_zero]; norm_num
  have h02 : wDP ['a', 'b'] ['b', 'a'] 0 2 = 2 := by
    rw [wDP_row_zero]; norm_num
  have h10 : wDP ['a', 'b'] ['b', 'a'] 1 0 = 1 := by
    rw [wDP_col_zero]; norm_num
  have h20 : wDP ['a', 'b'] ['b', 'a'] 2 0 = 2 := by
    rw [wDP_col_zero]; norm_num
  have h11 : wDP ['a', 'b'] ['b', 'a'] 1 1 = 1 := by
    rw [show wDP ['a', 'b'] ['b', 'a'] 1 1 = wDP ['a', 'b'] ['b', 'a'] (0 + 1) (0 + 1)
      from rfl, wDP_succ]
    norm_num [h01, h10, h00, hab, hcab, min_def]
  have h12 : wDP ['a', 'b'] ['b', 'a'] 1 2 = 1 := by
    rw [show wDP ['a', 'b'] ['b', 'a'] 1 2 = wDP ['a', 'b'] ['b', 'a'] (0 + 1) (1 + 1)
      from rfl, wDP_succ]
    norm_num [h02, h01, h11, min_def]
  have h21 : wDP ['a', 'b'] ['b', 'a'] 2 1 = 1 := by
    rw [show wDP ['a', 'b'] ['b', 'a'] 2 1 = wDP ['a', 'b'] ['b', 'a'] (1 + 1) (0 + 1)
      from rfl, wDP_succ]
    norm_num [h20, h10, h11, min_def]
  rw [show wDP ['a', 'b'] ['b', 'a'] (['a', 'b'] : Str).length (['b', 'a'] : Str).length =
    wDP ['a', 'b'] ['b', 'a'] (1 + 1) (1 + 1) from rfl, wDP_succ]
  norm_num [h12, h21, h11, h00, hba, hcba, min_def]

/-- C7: error_likelihood is exp(−weighted_edit_cost/scale) clipped to [0,1],
where the weighted edit cost dynamic program has unit-cost insertions and
deletions (boundary rows), the Danish substitution table (a↔å and o↔ø at 0.35,
e↔æ at 0.45, all other substitutions 1.0), adjacent transpositions at 0.6, and
cost 0 on equal strings. -/
theorem c7_error_likelihood_formula :
    (∀ q c : Str, errorLikelihood q c =
      max 0 (min 1 (Real.exp (-(((weightedEditCost q c : ℚ) : ℝ) /
        ((max q.length (max c.length 1) : ℕ) : ℝ)))))) ∧
    (substitutionCost 'a' 'å' = 0.35 ∧ substitutionCost 'å' 'a' = 0.35 ∧
      substitutionCost 'o' 'ø' = 0.35 ∧ substitutionCost 'ø' 'o' = 0.35 ∧
      substitutionCost 'e' 'æ' = 0.45 ∧ substitutionCost 'æ' 'e' = 0.45) ∧
    (∀ a b : Char, ((a, b) ∈ danishSubstitutionCosts.map (·.1) → False) →
      substitutionCost a b = 1) ∧
    (∀ a b : Str, (∀ j, wDP a b 0 j = (j : ℚ)) ∧ (∀ i, wDP a b i 0 = (i : ℚ))) ∧
    (∀ s : Str, (∀ i, wDP s s i i = 0) ∧ weightedEditCost s s = 0) ∧
    weightedEditCost ("ab".data) ("ba".data) = 0.6 ∧
    (∀ (a b : Str) (i j : Nat), 1 ≤ i → 1 ≤ j → a.getD i ' ' = b.getD (j - 1) ' ' →
      a.getD (i - 1) ' ' = b.getD j ' ' →
      wDP a b (i + 1) (j + 1) ≤ wDP a b (i - 1) (j - 1) + 0.6) := by
  refine ⟨fun q c => rfl, ⟨rfl, rfl, rfl, rfl, rfl, rfl⟩, substitutionCost_default,
    fun a b => ⟨wDP_row_zero a b, wDP_col_zero a b⟩,
    fun s => ⟨wDP_self s, weightedEditCost_self s⟩,
    weightedEditCost_transposition, ?_⟩
  intro a b i j h1 h2 h3 h4
  exact wDP_succ_le_transposition a b i j ⟨h1, h2, h3, h4⟩

/-- Witness for C7 at concrete inputs: the substitution pair (x, y) is outside
the Danish table so costs 1, and the transposition bound instantiated on
"ab"/"ba" at the corner cell. -/
theorem c7_error_likelihood_formula_witness :
    substitutionCost 'x' 'y' = 1 ∧
      wDP ("ab".data) ("ba".data) (1 + 1) (1 + 1) ≤
        wDP ("ab".data) ("ba".data) (1 - 1) (1 - 1) + 0.6 :=
  ⟨c7_error_likelihood_formula.2.2.1 'x' 'y' (by decide),
    c7_error_likelihood_formula.2.2.2.2.2.2 ("ab".data) ("ba".data) 1 1
      (by decide) (by decide) (by decide) (by decide)⟩

/-! ### Shared concrete engine state for witnesses and counterexamples -/

/-- A freshly constructed engine over empty stores: no dictionaries, no
lexemes, no ignored tokens, cache of capacity 4096 (as in TypoEngine.__init__),
the default decision thresholds of typo_policy.v1.json, and a trivial
similarity backend. -/
noncomputable def engine0 : EngineState :=
  { generalWords := [], suggestionWords := [], dbLexemes := [], dbIgnored := [],
    ignoredMem := none, cache := { maxSize := 4096, store := [] }, events := [],
    thresholds := { typoThreshold := 0.78, uncertainThreshold := 0.5, minMargin := 0.08 },
    similarity := fun _ _ => 0 }

/-! ### Claim C2: the dictionary-membership override -/

/-- C2: after the typo pipeline's decision, a dictionary hit downgrades
"uncertain" to "new" with reason "uncertain_resolved_dictionary_hit" and leaves
other statuses unchanged; a dictionary miss promotes "new"/"uncertain" to
"typo_likely" with reason "dictionary_miss_forced_typo"; "typo_likely" is never
changed by the override. -/
theorem c2_dictionary_membership_override :
    ∀ (st : EngineState) (status : TypoStatus) (forms : ComparisonForms),
      ((forms.alternates.any fun form => isKnownDictionaryWord st form) = true →
        (status = TypoStatus.uncertain →
          resolveStatusByDictionaryMembership st status forms =
            (TypoStatus.new, ["uncertain_resolved_dictionary_hit"])) ∧
        (status ≠ TypoStatus.uncertain →
          resolveStatusByDictionaryMembership st status forms = (status, []))) ∧
      ((forms.alternates.any fun form => isKnownDictionaryWord st form) = false →
        ((status = TypoStatus.new ∨ status = TypoStatus.uncertain) →
          resolveStatusByDictionaryMembership st status forms =
            (TypoStatus.typo_likely, ["dictionary_miss_forced_typo"])) ∧
        (status = TypoStatus.typo_likely →
          resolveStatusByDictionaryMembership st status forms = (status, []))) ∧
      (status = TypoStatus.typo_likely →
        (resolveStatusByDictionaryMembership st status forms).1 =
          TypoStatus.typo_likely) := by
  intro st status forms
  refine ⟨fun hin => ⟨fun hs => ?_, fun hs => ?_⟩,
    fun hout => ⟨fun hs => ?_, fun hs => ?_⟩, fun hs => ?_⟩
  · subst hs
    simp [resolveStatusByDictionaryMembership, hin]
  · unfold resolveStatusByDictionaryMembership
    rw [hin]
    simp [hs]
  · unfold resolveStatusByDictionaryMembership
    rw [hout]
    rcases hs with hs | hs <;> subst hs <;> simp
  · subst hs
    unfold resolveStatusByDictionaryMembership
    rw [hout]
    simp
  · subst hs
    by_cases hin : (forms.alternates.any fun form => isKnownDictionaryWord st form) = true
    · unfold resolveStatusByDictionaryMembership
      rw [hin]
      simp
    · have hin' : (forms.alternates.any fun form => isKnownDictionaryWord st form) = false := by
        cases hv : forms.alternates.any fun form => isKnownDictionaryWord st form
        · rfl
        · exact absurd hv hin
      unfold resolveStatusByDictionaryMembership
      rw [hin']
      simp

/-- Witness for C2 at concrete inputs: with no dictionary loaded, an
"uncertain" decision for "abc" is promoted to "typo_likely" with the
dictionary-miss tag, and a "typo_likely" decision is left unchanged. -/
theorem c2_dictionary_membership_override_witness :
    resolveStatusByDictionaryMembership engine0 TypoStatus.uncertain
        (comparisonForms ("abc".data)) =
      (TypoStatus.typo_likely, ["dictionary_miss_forced_typo"]) ∧
    (resolveStatusByDictionaryMembership engine0 TypoStatus.typo_likely
        (comparisonForms ("abc".data))).1 = TypoStatus.typo_likely :=
  ⟨((c2_dictionary_membership_override engine0 TypoStatus.uncertain
      (comparisonForms ("abc".data))).2.1 (by decide)).1 (Or.inr rfl),
    (c2_dictionary_membership_override engine0 TypoStatus.typo_likely
      (comparisonForms ("abc".data))).2.2 rfl⟩

/-! ### Claim C10: add_ignored_token frame conditions -/

theorem lookup_upsert_found (token : Str) (scope : String) (e : Option ℚ) :
    ∀ rows : List IgnoredRow, rows.any (fun r => matchesRow r token scope) = true →
      ((rows.map fun r =>
        if matchesRow r token scope then { r with expiresAt := e } else r).find?
          fun r => matchesRow r token scope).map (·.expiresAt) = some e := by
  intro rows
  induction rows with
  | nil => intro h; simp at h
  | cons r rest ih =>
    intro h
    rw [List.map_cons]
    by_cases hr : matchesRow r token scope = true
    · have hm : matchesRow { r with expiresAt := e } token scope = true := by
        simpa [matchesRow] using hr
      rw [if_pos hr]
      simp [List.find?_cons, hm]
    · have hr' : matchesRow r token scope = false := by
        cases hv : matchesRow r token scope
        · rfl
        · exact absurd hv hr
      have h' : rest.any (fun r => matchesRow r token scope) = true := by
        rcases List.any_eq_true.1 h with ⟨x, hx, hpx⟩
        rcases List.mem_cons.1 hx with rfl | hx'
        · exact absurd hpx hr
        · exact List.any_eq_true.2 ⟨x, hx', hpx⟩
      rw [if_neg hr]
      rw [List.find?_cons]
      rw [show matchesRow r token scope = false from hr']
      exact ih h'

theorem lookup_upsert (rows : List IgnoredRow) (token : Str) (scope : String)
    (e : Option ℚ) :
    lookupIgnoredRow (upsertIgnored rows token scope e) token scope = some e := by
  unfold upsertIgnored lookupIgnoredRow
  by_cases h : rows.any (fun r => matchesRow r token scope) = true
  · rw [if_pos h]
    exact lookup_upsert_found token scope e rows h
  · have h' : rows.any (fun r => matchesRow r token scope) = false := by
      cases hv : rows.any (fun r => matchesRow r token scope)
      · rfl
      · exact absurd hv h
    rw [if_neg (by simp [h'])]
    have hnone : rows.find? (fun r => matchesRow r token scope) = none := by
      rw [List.find?_eq_none]
      intro x hx
      rcases List.any_eq_false.1 (by simpa using h') x hx with hfx
      simp [hfx]
    rw [List.find?_append, hnone]
    simp [matchesRow]

/-- C10: add_ignored_token with an empty normalized form is a complete no-op
(identical state: no row written, in-memory set untouched, cache kept); with a
non-empty normalized form it upserts the (normalized, scope) row with the given
expiry, updates the in-memory set only if it is loaded, and clears the cache in
the same call. -/
theorem c10_add_ignored_token :
    ∀ (st : EngineState) (token : Str) (scope : String) (expiresAt : Option ℚ),
      ((comparisonForms token).normalized = [] →
        addIgnoredToken st token scope expiresAt = st) ∧
      ((comparisonForms token).normalized ≠ [] →
        (addIgnoredToken st token scope expiresAt).cache.store = [] ∧
        lookupIgnoredRow (addIgnoredToken st token scope expiresAt).dbIgnored
          (comparisonForms token).normalized scope = some expiresAt ∧
        (st.ignoredMem = none →
          (addIgnoredToken st token scope expiresAt).ignoredMem = none) ∧
        (∀ s, st.ignoredMem = some s →
          (addIgnoredToken st token scope expiresAt).ignoredMem =
            some (if (comparisonForms token).normalized ∈ s then s
              else s ++ [(comparisonForms token).normalized]))) := by
  intro st token scope expiresAt
  constructor
  · intro h
    unfold addIgnoredToken
    rw [if_pos h]
  · intro h
    unfold addIgnoredToken
    rw [if_neg h]
    refine ⟨?_, ?_, ?_, ?_⟩
    · cases hm : st.ignoredMem <;> simp [hm, LRUCache.clearAll]
    · cases hm : st.ignoredMem <;> simp [hm, lookup_upsert]
    · intro hm
      simp [hm]
    · intro s hm
      simp [hm]

/-- Witness for C10 at concrete inputs: adding "." (normalized to empty) to a
fresh engine changes nothing, while adding "abc" writes the global row with no
expiry and leaves the cache empty. -/
theorem c10_add_ignored_token_witness :
    addIgnoredToken engine0 (".".data) "global" none = engine0 ∧
    (addIgnoredToken engine0 ("abc".data) "global" none).cache.store = [] ∧
    lookupIgnoredRow (addIgnoredToken engine0 ("abc".data) "global" none).dbIgnored
      (comparisonForms ("abc".data)).normalized "global" = some none :=
  ⟨(c10_add_ignored_token engine0 (".".data) "global" none).1 (by decide),
    ((c10_add_ignored_token engine0 ("abc".data) "global" none).2 (by decide)).1,
    ((c10_add_ignored_token engine0 ("abc".data) "global" none).2 (by decide)).2.1⟩

/-! ### Claim C6: the user-lexicon source boost -/

/-- C6 counterexample: a candidate produced by the SymSpell branch of
CandidateProvider._suggest_one for a word that is in the user lexicon is
tagged "from_symspell", so rank_candidates gives it source boost 0, not the
0.15 the claim requires for user-lexicon-origin candidates. -/
theorem c6_counterexample_symspell_user_word_not_boosted :
    suggestOneSym [⟨"hund".data, 1, 100⟩] 20 =
      [⟨"hund".data, 1, ["from_symspell"], 100⟩] ∧
    ("hund".data : Str) ∈ ["hund".data] ∧
    rankSourceBoost ⟨"hund".data, 1, ["from_symspell"], 100⟩ = 0 ∧
    (0 : ℝ) ≠ 0.15 := by
  refine ⟨rfl, by simp, ?_, by norm_num⟩
  simp [rankSourceBoost]

/-- C6 (amended): rank_candidates adds the fixed 0.15 boost exactly to
candidates whose source_flags contain "from_user_dict"; the brute-force
fallback branch of _suggest_one tags a candidate that way iff its value is in
the user lexicon (so there the boost tracks origin), while the SymSpell branch
tags every candidate "from_symspell", so none of its candidates receive the
boost regardless of origin. -/
theorem c6_source_boost :
    (∀ c : Candidate,
      ("from_user_dict" ∈ c.sourceFlags → rankSourceBoost c = 0.15) ∧
      (¬ "from_user_dict" ∈ c.sourceFlags → rankSourceBoost c = 0)) ∧
    (∀ (suggestionWords userLemmas : List Str) (normalized : Str)
        (maxCandidates maxDistance : Nat) (c : Candidate),
      c ∈ suggestOneFallback suggestionWords userLemmas normalized
        maxCandidates maxDistance →
      ((c.value ∈ userLemmas ∧ c.sourceFlags = ["from_user_dict"] ∧
          rankSourceBoost c = 0.15) ∨
        (c.value ∉ userLemmas ∧ c.sourceFlags = ["from_general_dict"] ∧
          rankSourceBoost c = 0))) ∧
    (∀ (results : List SymResult) (maxCandidates : Nat) (c : Candidate),
      c ∈ suggestOneSym results maxCandidates →
      c.sourceFlags = ["from_symspell"] ∧ rankSourceBoost c = 0) := by
  refine ⟨fun c => ⟨fun h => by simp [rankSourceBoost, h], fun h => by
    simp [rankSourceBoost, h]⟩, ?_, ?_⟩
  · intro suggestionWords userLemmas normalized maxCandidates maxDistance c hc
    unfold suggestOneFallback at hc
    split at hc
    · simp at hc
    · have hc1 := List.take_subset _ _ hc
      rw [mem_sortBy] at hc1
      rcases List.mem_filterMap.1 hc1 with ⟨w, _, hw⟩
      dsimp only at hw
      split at hw
      · by_cases hmem : w ∈ userLemmas
        · rw [if_pos hmem] at hw
          cases hw
          left
          refine ⟨by simpa using hmem, rfl, by simp [rankSourceBoost]⟩
        · rw [if_neg hmem] at hw
          cases hw
          right
          refine ⟨by simpa using hmem, rfl, ?_⟩
          simp only [rankSourceBoost]
          rw [if_neg (by decide)]
      · simp at hw
  · intro results maxCandidates c hc
    unfold suggestOneSym at hc
    rcases List.mem_map.1 hc with ⟨r, _, rfl⟩
    refine ⟨rfl, ?_⟩
    simp only [rankSourceBoost]
    rw [if_neg (by decide)]

/-- Witness for C6 at concrete inputs: the fallback branch boosts the
user-lexicon word "hund" and the SymSpell branch leaves its identically-sourced
counterpart unboosted. -/
theorem c6_source_boost_witness :
    ((⟨"hund".data, 0, ["from_user_dict"], 100⟩ : Candidate).value ∈
        ["hund".data] ∧
      (⟨"hund".data, 0, ["from_user_dict"], 100⟩ : Candidate).sourceFlags =
        ["from_user_dict"] ∧
      rankSourceBoost ⟨"hund".data, 0, ["from_user_dict"], 100⟩ = 0.15) ∨
    ((⟨"hund".data, 0, ["from_user_dict"], 100⟩ : Candidate).value ∉
        ["hund".data] ∧
      (⟨"hund".data, 0, ["from_user_dict"], 100⟩ : Candidate).sourceFlags =
        ["from_general_dict"] ∧
      rankSourceBoost ⟨"hund".data, 0, ["from_user_dict"], 100⟩ = 0) :=
  c6_source_boost.2.1 [] ["hund".data] ("hund".data) 20 1
    ⟨"hund".data, 0, ["from_user_dict"], 100⟩
    (by
      unfold suggestOneFallback
      rw [if_neg (by decide)]
      simp [levenshteinDist, sortBy, insertBy, List.filterMap])

/-! ### Claim C1: proper-noun bias and the final pipeline status -/

theorem decideStatus_nil (bias : Bool) (tt ut mm : ℝ) :
    decideStatus [] bias tt ut mm = ⟨TypoStatus.new, 0, ["weak_candidate_evidence"]⟩ := by
  simp [decideStatus]

theorem decideStatus_bias_cons (top : RankedCandidate) (rest : List RankedCandidate)
    (tt ut mm : ℝ) :
    decideStatus (top :: rest) true tt ut mm =
      (if calibrateThreshold ut top.priorScore ≤
          blendedConfidence top.score
            (top2Posterior top.score ((rest.head?).map (·.score)) 0.35) then
        ⟨TypoStatus.uncertain,
          blendedConfidence top.score
            (top2Posterior top.score ((rest.head?).map (·.score)) 0.35),
          ["proper_noun_bias", "candidate_medium_confidence"]⟩
      else
        ⟨TypoStatus.new,
          blendedConfidence top.score
            (top2Posterior top.score ((rest.head?).map (·.score)) 0.35),
          ["proper_noun_bias"]⟩) := by
  simp only [decideStatus, eq_self_iff_true, if_true]

theorem loadIgnored_snd (st : EngineState) (now : ℚ) :
    (loadIgnored st now).2 = { st with ignoredMem := some ((loadIgnored st now).1) } := by
  cases hm : st.ignoredMem with
  | none => simp [loadIgnored, hm]
  | some s =>
    simp only [loadIgnored, hm]
    cases st
    simp_all

theorem isKnownDictionaryWord_congr (st st' : EngineState)
    (h : st.generalWords = st'.generalWords) (f : Str) :
    isKnownDictionaryWord st f = isKnownDictionaryWord st' f := by
  unfold isKnownDictionaryWord
  rw [h]

theorem resolve_not_inDict_fst (st : EngineState) (status : TypoStatus)
    (forms : ComparisonForms)
    (h : (forms.alternates.any fun form => isKnownDictionaryWord st form) = false) :
    (resolveStatusByDictionaryMembership st status forms).1 = TypoStatus.typo_likely := by
  unfold resolveStatusByDictionaryMembership
  rw [h]
  cases status <;> simp

theorem decideStatus_no_bias_tag (ranked : List RankedCandidate) (tt ut mm : ℝ) :
    "proper_noun_bias" ∉ (decideStatus ranked false tt ut mm).reasonTags := by
  cases ranked with
  | nil => simp [decideStatus]
  | cons top rest =>
    simp only [decideStatus, Bool.false_eq_true, if_false]
    split
    · simp
    · split
      · simp
      · split
        · split <;> simp
        · simp

theorem resolve_no_bias_tag (st : EngineState) (status : TypoStatus)
    (forms : ComparisonForms) :
    "proper_noun_bias" ∉ (resolveStatusByDictionaryMembership st status forms).2 := by
  unfold resolveStatusByDictionaryMembership
  by_cases hd : ∃ x ∈ forms.alternates, isKnownDictionaryWord st x = true <;>
    repeat' split <;>
    simp [hd]

/-- When gating passes, the token is not ignored, the cache misses, and the
token is not an exact dictionary word, classify_unknown runs the full pipeline,
the dictionary-membership override forces the final status to "typo_likely",
and every gating reason tag (in particular "proper_noun_bias" when set)
appears in the returned reason tags. -/
theorem classifyUnknown_forced (st : EngineState) (token : Str) (sentenceStart : Bool)
    (dt now : ℚ)
    (hrun : (shouldRunTypoCheck token (comparisonForms token).normalized 3
      sentenceStart).shouldRun = true)
    (hign : (comparisonForms token).normalized ∉ (loadIgnored st now).1)
    (hmiss : ((loadIgnored st now).2.cache.store.find? fun p =>
      decide (p.1 = mkKey (comparisonForms token).normalized sentenceStart)) = none)
    (hdict : ((comparisonForms token).alternates.any fun form =>
      isKnownDictionaryWord st form) = false) :
    (classifyUnknown st token sentenceStart dt now).1.status = TypoStatus.typo_likely ∧
    (∀ tag, tag ∈ (shouldRunTypoCheck token (comparisonForms token).normalized 3
        sentenceStart).reasonTags →
      tag ∈ (classifyUnknown st token sentenceStart dt now).1.reasonTags) ∧
    ("proper_noun_bias" ∉ (shouldRunTypoCheck token (comparisonForms token).normalized 3
        sentenceStart).reasonTags →
      (shouldRunTypoCheck token (comparisonForms token).normalized 3
        sentenceStart).properNounBias = false →
      "proper_noun_bias" ∉ (classifyUnknown st token sentenceStart dt now).1.reasonTags) := by
  simp only [classifyUnknown, hrun, Bool.true_eq_false, if_false, LRUCache.getTouch, hmiss]
  rw [List.any_eq_false] at hdict
  rw [if_neg hign]
  split
  · rename_i hcond
    exfalso
    rw [List.any_eq_true] at hcond
    obtain ⟨f, hf, hk⟩ := hcond
    apply hdict f hf
    rw [isKnownDictionaryWord_congr _ st ?_] at hk
    · exact hk
    · simp [loadIgnored_snd]
  · dsimp only
    constructor
    · apply resolve_not_inDict_fst
      rw [List.any_eq_false]
      intro f hf
      rw [isKnownDictionaryWord_congr _ st ?_]
      · exact hdict f hf
      · simp [loadIgnored_snd]
    constructor
    · intro tag htag
      exact List.mem_append_left _ (List.mem_append_left _ htag)
    · intro hg hb hmem
      rcases List.mem_append.1 hmem with hm | hr
      · rcases List.mem_append.1 hm with hgm | hd
        · exact hg hgm
        · rw [hb] at hd
          exact decideStatus_no_bias_tag _ _ _ _ hd
      · exact resolve_no_bias_tag _ _ _ hr

/-- Gating evaluated on the capitalized token "Abc" mid-sentence: the check
runs and proper_noun_bias is set. -/
theorem gateAbc :
    shouldRunTypoCheck ("Abc".data) ("abc".data) 3 false =
      ⟨true, ["gating_ok", "proper_noun_bias"], true⟩ := by
  simp only [shouldRunTypoCheck]
  rw [if_neg (by decide), if_neg (by decide), if_neg (by decide), if_neg (by decide),
    if_neg (by decide), if_neg (by decide)]
  rw [if_neg ?_]
  · rw [if_neg (by decide)]
    rfl
  · intro hc
    rw [show (List.countP (fun c => c.isDigit) ("abc".data) : Nat) = 0 from by decide,
      show (("abc".data : Str).length : Nat) = 3 from by decide] at hc
    norm_num at hc

/-- C1 counterexample: the capitalized mid-sentence token "Abc" with no
dictionaries and no candidates carries the proper_noun_bias tag, yet
classify_unknown returns status "typo_likely" (the dictionary-membership
override promotes the bias-shaped decision), contradicting the claim that the
status is never "typo_likely" under this bias. -/
theorem c1_counterexample_bias_yields_typo_likely :
    (classifyUnknown engine0 ("Abc".data) false 0 0).1.status = TypoStatus.typo_likely ∧
    "proper_noun_bias" ∈ (classifyUnknown engine0 ("Abc".data) false 0 0).1.reasonTags := by
  have hn : (comparisonForms ("Abc".data)).normalized = ("abc".data : Str) := by decide
  have hrun : (shouldRunTypoCheck ("Abc".data)
      (comparisonForms ("Abc".data)).normalized 3 false).shouldRun = true := by
    rw [hn, gateAbc]
  have hign : (comparisonForms ("Abc".data)).normalized ∉ (loadIgnored engine0 0).1 := by
    decide
  have hmiss : ((loadIgnored engine0 0).2.cache.store.find? fun p =>
      decide (p.1 = mkKey (comparisonForms ("Abc".data)).normalized false)) = none := rfl
  have hdict : ((comparisonForms ("Abc".data)).alternates.any fun form =>
      isKnownDictionaryWord engine0 form) = false := by decide
  have h := classifyUnknown_forced engine0 ("Abc".data) false 0 0 hrun hign hmiss hdict
  refine ⟨h.1, h.2.1 "proper_noun_bias" ?_⟩
  rw [hn, gateAbc]
  decide

/-- C1 (amended): with proper_noun_bias the decision stage (decide_status)
returns "uncertain" exactly when the blended confidence reaches the calibrated
uncertain threshold and "new" otherwise — never "typo_likely"; but whenever
classify_unknown runs the full pipeline (gating passes, token not ignored, not
cached, not an exact dictionary word), the dictionary-membership override then
promotes the decision, so the status classify_unknown returns is
"typo_likely". -/
theorem c1_proper_noun_bias :
    (∀ (ranked : List RankedCandidate) (tt ut mm : ℝ),
      (decideStatus ranked true tt ut mm).status ≠ TypoStatus.typo_likely ∧
      ((decideStatus ranked true tt ut mm).status = TypoStatus.uncertain ∨
        (decideStatus ranked true tt ut mm).status = TypoStatus.new) ∧
      (∀ top rest, ranked = top :: rest →
        ((decideStatus ranked true tt ut mm).status = TypoStatus.uncertain ↔
          calibrateThreshold ut top.priorScore ≤
            blendedConfidence top.score
              (top2Posterior top.score ((rest.head?).map (·.score)) 0.35)))) ∧
    (∀ (st : EngineState) (token : Str) (sentenceStart : Bool) (dt now : ℚ),
      (shouldRunTypoCheck token (comparisonForms token).normalized 3
        sentenceStart).shouldRun = true →
      (comparisonForms token).normalized ∉ (loadIgnored st now).1 →
      ((loadIgnored st now).2.cache.store.find? fun p =>
        decide (p.1 = mkKey (comparisonForms token).normalized sentenceStart)) = none →
      ((comparisonForms token).alternates.any fun form =>
        isKnownDictionaryWord st form) = false →
      (classifyUnknown st token sentenceStart dt now).1.status =
        TypoStatus.typo_likely) := by
  constructor
  · intro ranked tt ut mm
    cases ranked with
    | nil =>
      rw [decideStatus_nil]
      refine ⟨by simp, Or.inr rfl, ?_⟩
      intro top rest h
      simp at h
    | cons top rest =>
      rw [decideStatus_bias_cons]
      split
      · refine ⟨by simp, Or.inl rfl, ?_⟩
        intro top' rest' h
        cases h
        simpa using ‹_›
      · refine ⟨by simp, Or.inr rfl, ?_⟩
        intro top' rest' h
        cases h
        constructor
        · intro h'
          simp at h'
        · intro h'
          exact absurd h' ‹_›
  · intro st token sentenceStart dt now h1 h2 h3 h4
    exact (classifyUnknown_forced st token sentenceStart dt now h1 h2 h3 h4).1

/-- Witness for C1 at concrete inputs: an empty candidate list under bias
decides "new" (not "typo_likely"), and the concrete pipeline run on "Abc"
returns "typo_likely". -/
theorem c1_proper_noun_bias_witness :
    (decideStatus [] true 0.78 0.5 0.08).status ≠ TypoStatus.typo_likely ∧
    (classifyUnknown engine0 ("Abc".data) false 0 0).1.status =
      TypoStatus.typo_likely :=
  ⟨(c1_proper_noun_bias.1 [] 0.78 0.5 0.08).1,
    c1_proper_noun_bias.2 engine0 ("Abc".data) false 0 0
      (by rw [show (comparisonForms ("Abc".data)).normalized = ("abc".data : Str)
          from by decide, gateAbc])
      (by decide) rfl (by decide)⟩

/-- The cache-hit situation of classify_unknown: gating passes, the token is
not ignored, and the cache holds the key. -/
def cacheHit (st : EngineState) (token : Str) (sentenceStart : Bool) (now : ℚ) : Prop :=
  (shouldRunTypoCheck token (comparisonForms token).normalized 3
    sentenceStart).shouldRun = true ∧
  (comparisonForms token).normalized ∉ (loadIgnored st now).1 ∧
  ((loadIgnored st now).2.cache.store.find? fun p =>
    decide (p.1 = mkKey (comparisonForms token).normalized sentenceStart)).isSome = true

theorem loadIgnored_events (st : EngineState) (evs : List EventRecord) (now : ℚ) :
    loadIgnored { st with events := evs } now =
      ((loadIgnored st now).1, { (loadIgnored st now).2 with events := evs }) := by
  cases hm : st.ignoredMem with
  | none => simp [loadIgnored, hm]
  | some s => simp [loadIgnored, hm]

/-- C5: every terminal decision of classify_unknown that is not a cache hit —
a gating skip, an ignored-token skip, a dictionary-exact skip, or a full
pipeline run — appends exactly one token_events record built by _log_event
from the returned result (raw token, normalized token, final status, top
suggestion if any, confidence, latency); a cache hit appends nothing; and the
event log has no effect on the TypoResult returned. -/
theorem c5_event_logging :
    ∀ (st : EngineState) (token : Str) (sentenceStart : Bool) (dt now : ℚ),
      (cacheHit st token sentenceStart now →
        (classifyUnknown st token sentenceStart dt now).2.events = st.events) ∧
      (¬ cacheHit st token sentenceStart now →
        (classifyUnknown st token sentenceStart dt now).2.events =
          st.events ++ [mkEvent token (classifyUnknown st token sentenceStart dt now).1]) ∧
      (∀ evs,
        (classifyUnknown { st with events := evs } token sentenceStart dt now).1 =
          (classifyUnknown st token sentenceStart dt now).1) := by
  intro st token ss dt now
  by_cases hrun : (shouldRunTypoCheck token (comparisonForms token).normalized 3
      ss).shouldRun = true
  case neg =>
    have hrun' : (shouldRunTypoCheck token (comparisonForms token).normalized 3
        ss).shouldRun = false := by
      cases hv : (shouldRunTypoCheck token (comparisonForms token).normalized 3
          ss).shouldRun
      · rfl
      · exact absurd hv hrun
    refine ⟨fun hhit => absurd hhit.1 hrun, fun _ => ?_, fun evs => ?_⟩
    · simp [classifyUnknown, hrun', logEvent]
    · simp [classifyUnknown, hrun']
  case pos =>
    by_cases hign : (comparisonForms token).normalized ∈ (loadIgnored st now).1
    · refine ⟨fun hhit => absurd hign hhit.2.1, fun _ => ?_, fun evs => ?_⟩
      · simp only [classifyUnknown, hrun, Bool.true_eq_false, if_false]
        rw [if_pos hign]
        simp [logEvent, loadIgnored_snd]
      · simp only [classifyUnknown, loadIgnored_events, hrun, Bool.true_eq_false, if_false,
          hign, if_true]
    · cases hf : (loadIgnored st now).2.cache.store.find? fun p =>
        decide (p.1 = mkKey (comparisonForms token).normalized ss) with
      | some p =>
        have hhit : cacheHit st token ss now := ⟨hrun, hign, by rw [hf]; rfl⟩
        refine ⟨fun _ => ?_, fun hn => absurd hhit hn, fun evs => ?_⟩
        · simp only [classifyUnknown, hrun, Bool.true_eq_false, if_false,
            LRUCache.getTouch, hf]
          rw [if_neg hign]
          simp [loadIgnored_snd]
        · simp only [classifyUnknown, loadIgnored_events, hrun, Bool.true_eq_false,
            if_false, LRUCache.getTouch, hf, hign, if_false]
      | none =>
        have hnohit : ¬ cacheHit st token ss now := fun hhit => by
          have h3 := hhit.2.2
          rw [hf] at h3
          simp at h3
        refine ⟨fun hhit => absurd hhit hnohit, fun _ => ?_, fun evs => ?_⟩
        · simp only [classifyUnknown, hrun, Bool.true_eq_false, if_false,
            LRUCache.getTouch, hf]
          rw [if_neg hign]
          split
          · simp [logEvent, loadIgnored_snd]
          · simp [logEvent, loadIgnored_snd]
        · simp only [classifyUnknown, loadIgnored_events, hrun, Bool.true_eq_false,
            if_false, LRUCache.getTouch, hf, hign, if_false, suggest, generalWordCount,
            knownLemmasOf, resolveStatusByDictionaryMembership, isKnownDictionaryWord]
          split <;> rfl

/-- Witness for C5 at concrete inputs: a gating-skip run on "ab" appends
exactly its own event, and the returned result does not depend on the event
log. -/
theorem c5_event_logging_witness :
    (classifyUnknown engine0 ("ab".data) false 0 0).2.events =
      engine0.events ++
        [mkEvent ("ab".data) (classifyUnknown engine0 ("ab".data) false 0 0).1] ∧
    (classifyUnknown { engine0 with events := [] } ("ab".data) false 0 0).1 =
      (classifyUnknown engine0 ("ab".data) false 0 0).1 :=
  ⟨(c5_event_logging engine0 ("ab".data) false 0 0).2.1 (fun h => by
      have h1 := h.1
      rw [show (shouldRunTypoCheck ("ab".data)
        (comparisonForms ("ab".data)).normalized 3 false).shouldRun = false
        from by decide] at h1
      exact Bool.false_ne_true h1),
    (c5_event_logging engine0 ("ab".data) false 0 0).2.2 []⟩

theorem find?_key_append_last (k : Str) (v : TypoResult) (l : List (Str × TypoResult))
    (hl : ∀ p ∈ l, ¬ p.1 = k) :
    ((l ++ [(k, v)]).find? fun p => decide (p.1 = k)) = some (k, v) := by
  rw [List.find?_append]
  have hnone : (l.find? fun p => decide (p.1 = k)) = none := by
    rw [List.find?_eq_none]
    intro p hp
    simp [hl p hp]
  rw [hnone]
  simp

theorem find?_filter_drop (k : Str) (v : TypoResult) (l : List (Str × TypoResult)) (n : Nat)
    (hn : n ≤ (l.filter fun q => !decide (q.1 = k)).length) :
    ((((l.filter fun q => !decide (q.1 = k)) ++ [(k, v)]).drop n).find? fun p =>
      decide (p.1 = k)) = some (k, v) := by
  rw [List.drop_append_of_le_length hn]
  apply find?_key_append_last
  intro p hp
  have hp' := List.mem_of_mem_drop hp
  have := List.of_mem_filter hp'
  simpa using this

theorem find?_setEntry (c : LRUCache) (k : Str) (v : TypoResult) (h : 1 ≤ c.maxSize) :
    ((c.setEntry k v).store.find? fun p => decide (p.1 = k)) = some (k, v) := by
  unfold LRUCache.setEntry
  dsimp only
  split
  · rename_i hlen
    apply find?_filter_drop
    rw [List.length_append] at hlen ⊢
    simp only [List.length_cons, List.length_nil] at hlen ⊢
    omega
  · apply find?_key_append_last
    intro p hp
    have := List.of_mem_filter hp
    simpa using this

theorem find?_getTouch (c : LRUCache) (k : Str) (p : Str × TypoResult)
    (h : (c.store.find? fun q => decide (q.1 = k)) = some p) :
    (((c.getTouch k).2).store.find? fun q => decide (q.1 = k)) = some (k, p.2) := by
  unfold LRUCache.getTouch
  rw [h]
  dsimp only
  apply find?_key_append_last
  intro q hq
  have := List.of_mem_filter hq
  simpa using this

theorem loadIgnored_some (st : EngineState) (s : List Str) (now : ℚ)
    (h : st.ignoredMem = some s) : loadIgnored st now = (s, st) := by
  simp [loadIgnored, h]

theorem classifyUnknown_loaded (st : EngineState) (token : Str) (ss : Bool) (dt now : ℚ)
    (hrun : (shouldRunTypoCheck token (comparisonForms token).normalized 3
      ss).shouldRun = true) :
    classifyUnknown st token ss dt now =
      classifyUnknown (loadIgnored st now).2 token ss dt now := by
  have hmem' : ((loadIgnored st now).2).ignoredMem = some ((loadIgnored st now).1) := by
    rw [loadIgnored_snd]
  simp only [classifyUnknown, hrun, Bool.true_eq_false, if_false]
  rw [loadIgnored_some _ _ now hmem']

theorem classifyUnknown_ignored_case (st : EngineState) (token : Str) (ss : Bool)
    (dt now : ℚ) (s : List Str)
    (hrun : (shouldRunTypoCheck token (comparisonForms token).normalized 3
      ss).shouldRun = true)
    (hmem : st.ignoredMem = some s)
    (hin : (comparisonForms token).normalized ∈ s) :
    classifyUnknown st token ss dt now =
      (⟨TypoStatus.new, (comparisonForms token).normalized, [], 0,
          ["gating_skip_ignored"], dt⟩,
        logEvent st token ⟨TypoStatus.new, (comparisonForms token).normalized, [], 0,
          ["gating_skip_ignored"], dt⟩) := by
  simp only [classifyUnknown, hrun, Bool.true_eq_false, if_false,
    loadIgnored_some st s now hmem]
  rw [if_pos hin]

theorem classifyUnknown_hit_case (st : EngineState) (token : Str) (ss : Bool)
    (dt now : ℚ) (s : List Str) (p : Str × TypoResult)
    (hrun : (shouldRunTypoCheck token (comparisonForms token).normalized 3
      ss).shouldRun = true)
    (hmem : st.ignoredMem = some s)
    (hnin : (comparisonForms token).normalized ∉ s)
    (hf : (st.cache.store.find? fun q =>
      decide (q.1 = mkKey (comparisonForms token).normalized ss)) = some p) :
    classifyUnknown st token ss dt now =
      (p.2, { st with
        cache := (st.cache.getTouch (mkKey (comparisonForms token).normalized ss)).2 }) := by
  simp only [classifyUnknown, hrun, Bool.true_eq_false, if_false,
    loadIgnored_some st s now hmem, LRUCache.getTouch, hf]
  rw [if_neg hnin]

theorem classifyUnknown_miss_case (st : EngineState) (token : Str) (ss : Bool)
    (dt now : ℚ) (s : List Str)
    (hrun : (shouldRunTypoCheck token (comparisonForms token).normalized 3
      ss).shouldRun = true)
    (hmem : st.ignoredMem = some s)
    (hnin : (comparisonForms token).normalized ∉ s)
    (hf : (st.cache.store.find? fun q =>
      decide (q.1 = mkKey (comparisonForms token).normalized ss)) = none) :
    (classifyUnknown st token ss dt now).2 =
      logEvent { st with
          cache := st.cache.setEntry (mkKey (comparisonForms token).normalized ss)
            ((classifyUnknown st token ss dt now).1) } token
        ((classifyUnknown st token ss dt now).1) := by
  simp only [classifyUnknown, hrun, Bool.true_eq_false, if_false,
    loadIgnored_some st s now hmem, LRUCache.getTouch, hf]
  rw [if_neg hnin]
  split <;> rfl

/-- C3 (amended): two consecutive classify_unknown calls with the same
(token, sentence-start flag) and no intervening mutation return results that
are identical in every field except possibly latency_ms (skip-path results are
recomputed with a fresh latency reading); when the first call reaches the
cache stage (gating passes and the token is not ignored) the second call
returns the identical cached result, latency included; and add_user_lexeme
leaves the cache with no entries. -/
theorem c3_cache_correctness :
    (∀ (st : EngineState) (token : Str) (ss : Bool) (dt1 dt2 now1 now2 : ℚ),
      1 ≤ st.cache.maxSize →
      ((classifyUnknown (classifyUnknown st token ss dt1 now1).2 token ss dt2 now2).1 =
          (classifyUnknown st token ss dt1 now1).1 ∨
        (classifyUnknown (classifyUnknown st token ss dt1 now1).2 token ss dt2 now2).1 =
          { (classifyUnknown st token ss dt1 now1).1 with latencyMs := dt2 }) ∧
      ((shouldRunTypoCheck token (comparisonForms token).normalized 3 ss).shouldRun =
          true →
        (comparisonForms token).normalized ∉ (loadIgnored st now1).1 →
        (classifyUnknown (classifyUnknown st token ss dt1 now1).2 token ss dt2 now2).1 =
          (classifyUnknown st token ss dt1 now1).1)) ∧
    (∀ (st : EngineState) (lem : Str), (addUserLexeme st lem).cache.store = []) := by
  refine ⟨?_, fun st lem => by simp [addUserLexeme, LRUCache.clearAll]⟩
  intro st token ss dt1 dt2 now1 now2 hmax
  by_cases hrun : (shouldRunTypoCheck token (comparisonForms token).normalized 3
      ss).shouldRun = true
  case neg =>
    have hrun' : (shouldRunTypoCheck token (comparisonForms token).normalized 3
        ss).shouldRun = false := by
      cases hv : (shouldRunTypoCheck token (comparisonForms token).normalized 3
          ss).shouldRun
      · rfl
      · exact absurd hv hrun
    refine ⟨Or.inr ?_, fun h1 _ => absurd h1 hrun⟩
    simp [classifyUnknown, hrun', logEvent]
  case pos =>
    rw [classifyUnknown_loaded st token ss dt1 now1 hrun]
    have hmem' : ((loadIgnored st now1).2).ignoredMem = some ((loadIgnored st now1).1) := by
      rw [loadIgnored_snd]
    by_cases hin : (comparisonForms token).normalized ∈ (loadIgnored st now1).1
    · rw [classifyUnknown_ignored_case _ token ss dt1 now1 _ hrun hmem' hin]
      have hmem2 : (logEvent (loadIgnored st now1).2 token
          ⟨TypoStatus.new, (comparisonForms token).normalized, [], 0,
            ["gating_skip_ignored"], dt1⟩).ignoredMem =
          some ((loadIgnored st now1).1) := by
        simpa [logEvent] using hmem'
      rw [classifyUnknown_ignored_case _ token ss dt2 now2 _ hrun hmem2 hin]
      exact ⟨Or.inr rfl, fun _ h2 => absurd hin h2⟩
    · cases hf : ((loadIgnored st now1).2.cache.store.find? fun q =>
        decide (q.1 = mkKey (comparisonForms token).normalized ss)) with
      | some p =>
        rw [classifyUnknown_hit_case _ token ss dt1 now1 _ p hrun hmem' hin hf]
        have hmem2 : ({ (loadIgnored st now1).2 with
            cache := ((loadIgnored st now1).2.cache.getTouch
              (mkKey (comparisonForms token).normalized ss)).2 } :
              EngineState).ignoredMem = some ((loadIgnored st now1).1) := hmem'
        have hf2 := find?_getTouch ((loadIgnored st now1).2.cache)
          (mkKey (comparisonForms token).normalized ss) p hf
        rw [classifyUnknown_hit_case _ token ss dt2 now2 _ _ hrun hmem2 hin hf2]
        exact ⟨Or.inl rfl, fun _ _ => rfl⟩
      | none =>
        have h2 := classifyUnknown_miss_case _ token ss dt1 now1 _ hrun hmem' hin hf
        rw [h2]
        have hmem2 : (logEvent { (loadIgnored st now1).2 with
            cache := (loadIgnored st now1).2.cache.setEntry
              (mkKey (comparisonForms token).normalized ss)
              ((classifyUnknown (loadIgnored st now1).2 token ss dt1 now1).1) } token
            ((classifyUnknown (loadIgnored st now1).2 token ss dt1 now1).1)).ignoredMem =
            some ((loadIgnored st now1).1) := hmem'
        have hmax' : 1 ≤ ((loadIgnored st now1).2.cache).maxSize := by
          rw [loadIgnored_snd]
          exact hmax
        have hf2 : ((logEvent { (loadIgnored st now1).2 with
            cache := (loadIgnored st now1).2.cache.setEntry
              (mkKey (comparisonForms token).normalized ss)
              ((classifyUnknown (loadIgnored st now1).2 token ss dt1 now1).1) } token
            ((classifyUnknown (loadIgnored st now1).2 token ss dt1 now1).1)).cache.store.find?
              fun q => decide (q.1 = mkKey (comparisonForms token).normalized ss)) =
            some (mkKey (comparisonForms token).normalized ss,
              (classifyUnknown (loadIgnored st now1).2 token ss dt1 now1).1) :=
          find?_setEntry _ _ _ hmax'
        rw [classifyUnknown_hit_case _ token ss dt2 now2 _ _ hrun hmem2 hin hf2]
        exact ⟨Or.inl rfl, fun _ _ => rfl⟩

/-- Witness for C3 at concrete inputs: for the pipeline token "Abc" the second
call returns exactly the cached first result. -/
theorem c3_cache_correctness_witness :
    (classifyUnknown (classifyUnknown engine0 ("Abc".data) false 0 0).2
        ("Abc".data) false 1 0).1 =
      (classifyUnknown engine0 ("Abc".data) false 0 0).1 :=
  (c3_cache_correctness.1 engine0 ("Abc".data) false 0 1 0 0 (by decide)).2
    (by rw [show (comparisonForms ("Abc".data)).normalized = ("abc".data : Str)
        from by decide, gateAbc])
    (by decide)

/-- C3 counterexample: the gating-skip token "ab" is not cached, so two
consecutive calls with different latency readings return TypoResult values
that differ (in the latency_ms field), refuting bit-identical results. -/
theorem c3_counterexample_latency_differs :
    (classifyUnknown (classifyUnknown engine0 ("ab".data) false 0 0).2
        ("ab".data) false 1 0).1 ≠
      (classifyUnknown engine0 ("ab".data) false 0 0).1 := by
  intro h
  have h1 : (classifyUnknown engine0 ("ab".data) false 0 0).1.latencyMs = 0 := rfl
  have h2 : (classifyUnknown (classifyUnknown engine0 ("ab".data) false 0 0).2
      ("ab".data) false 1 0).1.latencyMs = 1 := rfl
  rw [h, h1] at h2
  norm_num at h2

/-! ### C9: sentence-start handling of classify vs classify_many -/

/-- Gating on "Abc" at a sentence start: the check runs, no bias. -/
theorem gateAbcStart :
    shouldRunTypoCheck ("Abc".data) ("abc".data) 3 true =
      ⟨true, ["gating_ok"], false⟩ := by
  simp only [shouldRunTypoCheck]
  rw [if_neg (by decide), if_neg (by decide), if_neg (by decide), if_neg (by decide),
    if_neg (by decide), if_neg (by decide)]
  rw [if_neg ?_]
  · rw [if_neg (by decide)]
    rfl
  · intro hc
    rw [show (List.countP (fun c => c.isDigit) ("abc".data) : Nat) = 0 from by decide,
      show (("abc".data : Str).length : Nat) = 3 from by decide] at hc
    norm_num at hc

/-- A concrete classifier state: empty surface-form and lexeme tables, adapters
that return nothing, and the concrete typo engine as fallback. -/
noncomputable def classifier0 : ClassifierState :=
  ⟨[], [], fun _ => [], fun _ => none, some engine0⟩

/-- On "Abc" the concrete classifier misses every lookup and falls through to
the typo engine, so the classification's reason tags are the typo result's. -/
theorem connAbc (ss : Bool) (dt now : ℚ) :
    (classifyWithConnection classifier0 ("Abc".data) ss dt now).1.reasonTags =
      (classifyUnknown engine0 ("Abc".data) ss dt now).1.reasonTags := by
  have hnorm : normalizeToken ("Abc".data) = ("abc".data : Str) := by decide
  have h1 : classifier0.surfaceForms = ([] : List (Str × Str)) := rfl
  have h2 : classifier0.lexemes = ([] : List Str) := rfl
  have hlc : lemmaCandidatesFor classifier0 ("abc".data : Str) = [] := rfl
  have h5 : classifier0.typoEngine = some engine0 := rfl
  simp only [classifyWithConnection, hnorm, h1, h2, List.find?_nil, hlc,
    newWithTypoFallback, h5, if_true]
  rw [if_neg (by decide)]

/-- Past the first token, the enumerate loop never sets the flag. -/
theorem classifyManyGo_firstFlag (ts : List Str) :
    ∀ (st : ClassifierState) (i : Nat) (dt now : ℚ), i ≠ 0 →
      classifyManyGo st ts i dt now = classifyManyFirstFlag st ts false dt now := by
  induction ts with
  | nil => intro st i dt now _; rfl
  | cons t ts ih =>
    intro st i dt now h
    simp only [classifyManyGo, classifyManyFirstFlag]
    rw [decide_eq_false h, ih _ _ dt now (by omega)]

/-- classify_many coincides with the leading-flag recursion: exactly the first
token of the batch is classified as sentence-initial. -/
theorem classifyMany_eq_firstFlag (st : ClassifierState) (tokens : List Str)
    (dt now : ℚ) :
    classifyMany st tokens dt now = classifyManyFirstFlag st tokens true dt now := by
  cases tokens with
  | nil => rfl
  | cons t ts =>
    have hgo : classifyManyGo st (t :: ts) 0 dt now =
        classifyManyFirstFlag st (t :: ts) true dt now := by
      simp only [classifyManyGo, classifyManyFirstFlag]
      rw [classifyManyGo_firstFlag ts _ 1 dt now (by omega)]
      simp
    simp only [classifyMany]
    rw [if_neg (List.cons_ne_nil t ts), hgo]

/-- classify_many on the single batch ["Abc"] yields exactly the
sentence-initial classification of "Abc". -/
theorem classifyManyAbc :
    (classifyMany classifier0 [("Abc".data)] 0 0).1 =
      [(classifyWithConnection classifier0 ("Abc".data) true 0 0).1] := rfl

/-- C9: LemmaAwareClassifier.classify always calls the pipeline with
sentence_start = False; classify_many coincides with the recursion that flags
exactly its first token as sentence-initial; concretely, "Abc" classified
alone carries proper_noun_bias while the same token as the (first) element of
classify_many's batch does not. -/
theorem c9_sentence_start_handling :
    (∀ (st : ClassifierState) (token : Str) (dt now : ℚ),
      classifyToken st token dt now = classifyWithConnection st token false dt now) ∧
    (∀ (st : ClassifierState) (tokens : List Str) (dt now : ℚ),
      classifyMany st tokens dt now = classifyManyFirstFlag st tokens true dt now) ∧
    ("proper_noun_bias" ∈ (classifyToken classifier0 ("Abc".data) 0 0).1.reasonTags ∧
      ∀ r, r ∈ (classifyMany classifier0 [("Abc".data)] 0 0).1 →
        "proper_noun_bias" ∉ r.reasonTags) := by
  refine ⟨fun st token dt now => rfl, classifyMany_eq_firstFlag, ?_, ?_⟩
  · have hn : (comparisonForms ("Abc".data)).normalized = ("abc".data : Str) := by decide
    have h := classifyUnknown_forced engine0 ("Abc".data) false 0 0
      (by rw [hn, gateAbc]) (by decide) rfl (by decide)
    show "proper_noun_bias" ∈
      (classifyWithConnection classifier0 ("Abc".data) false 0 0).1.reasonTags
    rw [connAbc]
    apply h.2.1
    rw [hn, gateAbc]
    decide
  · intro r hr
    rw [classifyManyAbc, List.mem_singleton] at hr
    subst hr
    rw [connAbc]
    have hn : (comparisonForms ("Abc".data)).normalized = ("abc".data : Str) := by decide
    have h := classifyUnknown_forced engine0 ("Abc".data) true 0 0
      (by rw [hn, gateAbcStart]) (by decide) rfl (by decide)
    apply h.2.2
    · rw [hn, gateAbcStart]
      decide
    · rw [hn, gateAbcStart]

/-- Witness for C9 at a concrete element: the single result of
classify_many on ["Abc"] carries no proper_noun_bias tag. -/
theorem c9_sentence_start_handling_witness :
    "proper_noun_bias" ∉
      (classifyWithConnection classifier0 ("Abc".data) true 0 0).1.reasonTags :=
  c9_sentence_start_handling.2.2.2 _
    (by rw [classifyManyAbc]; exact List.mem_singleton.2 rfl)
